import Mathlib

/-!
Verification of the omegaup/hook_tools lint orchestrator.

This file shallowly embeds the repository's own logic (the whitespace
normalizer, the .vue section parser, the file filtering / dispatch / report
stages, and the git file-enumeration helpers) as executable Lean functions,
and proves the specified properties about them.  External subprocesses
(clang-format, tidy, phpcbf, git, ...) are modelled as oracle parameters:
the repository only plumbs their output around, so every claim below is
about the plumbing, which is fully embedded.

File contents are modelled as `List Nat` (byte strings, matching the `bytes`
values the Python code manipulates); decoded text is `List Char`.
-/

namespace HookTools

/-! ## linters.py — WhitespaceLinter

`WhitespaceLinter._VALIDATIONS` is a list of five byte-regex substitutions,
applied sequentially by `run_one`.  Each substitution is embedded as a
recursive scanner with exactly the leftmost-match, greedy semantics of
Python `re.sub` for its pattern.  Relevant byte values: 9 = TAB, 10 = LF,
11 = VT, 12 = FF, 13 = CR, 32 = SPACE, 123 = LBRACE, 125 = RBRACE.
-/

/-- The byte class `[ \t]`. -/
def isSpTab (c : Nat) : Bool := c == 32 || c == 9

/-- The byte class `\s` of Python byte regexes: `[ \t\n\r\f\v]`. -/
def isWs (c : Nat) : Bool :=
  c == 32 || c == 9 || c == 10 || c == 13 || c == 12 || c == 11

/-- `re.sub(br'\r\n?', br'\n', l)`: every CR, optionally followed by LF,
becomes a single LF. -/
def sub1 : List Nat → List Nat
  | [] => []
  | c :: rest =>
    if c = 13 then
      match rest with
      | d :: rest2 => if d = 10 then 10 :: sub1 rest2 else 10 :: sub1 (d :: rest2)
      | [] => [10]
    else c :: sub1 rest

/-- `re.sub(br'[ \t]+\n', br'\n', l)`: a maximal run of spaces/tabs matches
iff the byte after it is LF, in which case run and LF are replaced by LF. -/
def sub2 : List Nat → List Nat
  | [] => []
  | c :: rest =>
    if isSpTab c then
      if (rest.dropWhile isSpTab).head? = some 10 then
        10 :: sub2 (rest.dropWhile isSpTab).tail
      else (c :: rest.takeWhile isSpTab) ++ sub2 (rest.dropWhile isSpTab)
    else c :: sub2 rest
termination_by l => l.length
decreasing_by
  · have h1 := (List.dropWhile_sublist (l := rest) isSpTab).length_le
    simp at h1 ⊢
    omega
  · have h1 := (List.dropWhile_sublist (l := rest) isSpTab).length_le
    simp at h1 ⊢
    omega
  · simp

/-- `re.sub(br'\n\n\n+', br'\n\n', l)`: a maximal run of at least three LFs
is replaced by two LFs. -/
def sub3 : List Nat → List Nat
  | [] => []
  | c :: rest =>
    if c = 10 then
      if 2 ≤ (rest.takeWhile (fun d => d == 10)).length then
        10 :: 10 :: sub3 (rest.dropWhile (fun d => d == 10))
      else (10 :: rest.takeWhile (fun d => d == 10)) ++ sub3 (rest.dropWhile (fun d => d == 10))
    else c :: sub3 rest
termination_by l => l.length
decreasing_by
  all_goals
    first
    | (have h1 := (List.dropWhile_sublist (l := rest) (fun d => d == 10)).length_le
       simp
       omega)
    | simp

/-- `re.sub(br'{\n\n+', br'{\n', l)`: an LBRACE followed by at least two LFs
keeps only one LF after the brace. -/
def sub4 : List Nat → List Nat
  | [] => []
  | c :: rest =>
    if c = 123 then
      if 2 ≤ (rest.takeWhile (fun d => d == 10)).length then
        123 :: 10 :: sub4 (rest.dropWhile (fun d => d == 10))
      else 123 :: sub4 rest
    else c :: sub4 rest
termination_by l => l.length
decreasing_by
  all_goals
    first
    | (have h1 := (List.dropWhile_sublist (l := rest) (fun d => d == 10)).length_le
       simp
       omega)
    | simp

/-- `re.sub(br'\n+\n(\s*})', br'\n\1', l)`: at least two LFs followed by the
group `\s*}` keep a single leading LF and the group.  The greedy `\n+\n`
always swallows the whole maximal LF run, so the group's `\s*` starts at the
first non-LF byte; the group matches iff the first non-whitespace byte after
the run is RBRACE. -/
def sub5 : List Nat → List Nat
  | [] => []
  | c :: rest =>
    if c = 10 then
      if 1 ≤ (rest.takeWhile (fun d => d == 10)).length then
        if ((rest.dropWhile (fun d => d == 10)).dropWhile isWs).head? = some 125 then
          10 :: (rest.dropWhile (fun d => d == 10)).takeWhile isWs ++
            125 :: sub5 ((rest.dropWhile (fun d => d == 10)).dropWhile isWs).tail
        else
          (10 :: rest.takeWhile (fun d => d == 10)) ++
            (rest.dropWhile (fun d => d == 10)).takeWhile isWs ++
            sub5 ((rest.dropWhile (fun d => d == 10)).dropWhile isWs)
      else 10 :: sub5 rest
    else c :: sub5 rest
termination_by l => l.length
decreasing_by
  · have h1 := (List.dropWhile_sublist (l := rest) (fun d => d == 10)).length_le
    have h2 :=
      (List.dropWhile_sublist (l := rest.dropWhile (fun d => d == 10)) isWs).length_le
    simp at h1 h2 ⊢
    omega
  · have h1 := (List.dropWhile_sublist (l := rest) (fun d => d == 10)).length_le
    have h2 :=
      (List.dropWhile_sublist (l := rest.dropWhile (fun d => d == 10)) isWs).length_le
    simp at h1 h2 ⊢
    omega
  · simp
  · simp

/-- `WhitespaceLinter._VALIDATIONS`: the five named substitutions, in source
order. -/
def VALIDATIONS : List (String × (List Nat → List Nat)) :=
  [("Windows-style EOF", sub1),
   ("trailing whitespace", sub2),
   ("consecutive empty lines", sub3),
   ("empty lines after an opening brace", sub4),
   ("empty lines before a closing brace", sub5)]

/-- `WhitespaceLinter.run_one`: runs all validations sequentially; a
validation that changes the contents appends its name to the violations. -/
def whitespaceRunOne (contents : List Nat) : List Nat × List String :=
  VALIDATIONS.foldl
    (fun acc v =>
      let replaced := v.2 acc.1
      if replaced ≠ acc.1 then (replaced, acc.2 ++ [v.1]) else acc)
    (contents, [])

/-- Spec-side restatement of `run_one`: the explicit sequential fold of the
five substitutions in their fixed order, with the violations list holding
exactly the names, in order, of the substitutions that changed the
contents at their point in the sequence. -/
def whitespaceRunOneSpec (c : List Nat) : List Nat × List String :=
  let c1 := sub1 c
  let v1 : List String := if c1 ≠ c then ["Windows-style EOF"] else []
  let c2 := sub2 c1
  let v2 : List String := if c2 ≠ c1 then ["trailing whitespace"] else []
  let c3 := sub3 c2
  let v3 : List String := if c3 ≠ c2 then ["consecutive empty lines"] else []
  let c4 := sub4 c3
  let v4 : List String := if c4 ≠ c3 then ["empty lines after an opening brace"] else []
  let c5 := sub5 c4
  let v5 : List String := if c5 ≠ c4 then ["empty lines before a closing brace"] else []
  (c5, v1 ++ v2 ++ v3 ++ v4 ++ v5)

/-! ### Invariants of normalized contents

Each predicate states that a byte string contains no residual match of the
corresponding validation pattern; `subI` establishes `chkI` and the later
substitutions preserve it (the fifth only on inputs that contain no
VT/FF bytes, which is why `run_one` is not idempotent in general). -/

/-- No space/tab immediately before an LF. -/
def chk2 : List Nat → Bool
  | a :: b :: rest => (!(isSpTab a && b == 10)) && chk2 (b :: rest)
  | _ => true

/-- No three consecutive LFs. -/
def chk3 : List Nat → Bool
  | a :: b :: c :: rest => (!(a == 10 && b == 10 && c == 10)) && chk3 (b :: c :: rest)
  | _ => true

/-- No LBRACE followed by two LFs. -/
def chk4 : List Nat → Bool
  | a :: b :: c :: rest => (!(a == 123 && b == 10 && c == 10)) && chk4 (b :: c :: rest)
  | _ => true

/-- Whether a byte string starts with whitespace followed by an RBRACE. -/
def wsThenRB (l : List Nat) : Bool := (l.dropWhile isWs).head? = some 125

/-- No two consecutive LFs followed by whitespace and an RBRACE. -/
def chk5 : List Nat → Bool
  | 10 :: 10 :: rest => (!wsThenRB rest) && chk5 (10 :: rest)
  | _ :: rest => chk5 rest
  | [] => true

/-! ## linters.py — LinterException and VueHTMLParser

`VueHTMLParser` subclasses the standard library's `HTMLParser`; the
tokenizer itself is external, so the parser is embedded over the stream of
callback events (`handle_starttag`, `handle_endtag`, `handle_comment`) the
tokenizer produces.  Decoded file contents are `List Char`; Python's
1-based `getpos()` pairs are carried on the events. -/

/-- `linters.LinterException`: a message plus whether it can be auto-fixed
(`fixable` defaults to `True` in the source). -/
structure LinterException where
  message : String
  fixable : Bool
deriving Repr, DecidableEq

/-- Errors that can escape the embedded Python code: a raised
`LinterException`, or a raw `IndexError` (reachable in `handle_comment`
when an `id-lint` comment has no second word). -/
inductive PyError where
  | lexc (e : LinterException)
  | indexError
deriving Repr, DecidableEq

/-- One `HTMLParser` callback event: a start tag (with its source text and
attribute list), an end tag, or a comment. -/
inductive VEvent where
  | startTag (tag : String) (text : String) (pos : Nat × Nat)
      (attrs : List (String × Option String))
  | endTag (tag : String) (pos : Nat × Nat)
  | comment (data : List Char)
deriving Repr, DecidableEq

/-- Python whitespace, for `str.strip()` / `str.split()`. -/
def isPyWs (c : Char) : Bool :=
  c = ' ' || c = '\t' || c = '\n' || c = '\r' || c = '\x0b' || c = '\x0c'

/-- Whether `needle` occurs as a contiguous substring, i.e.
`hay.find(needle) >= 0`. -/
def containsSub (needle : List Char) : List Char → Bool
  | [] => needle.isEmpty
  | c :: rest => needle.isPrefixOf (c :: rest) || containsSub needle rest

/-- `str.strip()`: drop leading and trailing whitespace. -/
def pyStrip (l : List Char) : List Char :=
  ((l.dropWhile isPyWs).reverse.dropWhile isPyWs).reverse

/-- `str.split()` with no separator: maximal nonempty runs of
non-whitespace characters. -/
def pySplit : List Char → List (List Char)
  | [] => []
  | c :: rest =>
    if isPyWs c then pySplit rest
    else (c :: rest.takeWhile (fun d => !isPyWs d)) ::
      pySplit (rest.dropWhile (fun d => !isPyWs d))
termination_by l => l.length
decreasing_by
  · simp
  · have h1 := (List.dropWhile_sublist (l := rest) (fun d => !isPyWs d)).length_le
    simp at h1 ⊢
    omega

/-- The state of a `VueHTMLParser`: the open-tag stack, the recorded
top-level tags, and whether the `id` attribute linter is enabled. -/
structure VueParserState where
  stack : List (String × String × (Nat × Nat))
  tags : List (String × String × (Nat × Nat) × (Nat × Nat))
  idLinterEnabled : Bool
deriving Repr, DecidableEq

/-- The initial state set up by `VueHTMLParser.parse`. -/
def vueInitState : VueParserState := ⟨[], [], true⟩

/-- `VueHTMLParser.handle_starttag`: push the tag (stack top is the list
head), then reject `id` attributes when the id linter is enabled. -/
def handleStartTag (st : VueParserState) (tag text : String) (pos : Nat × Nat)
    (attrs : List (String × Option String)) : Except PyError VueParserState :=
  let st' := { st with stack := (tag, text, (pos.1 - 1, pos.2)) :: st.stack }
  if st.idLinterEnabled = false then .ok st'
  else if attrs.any (fun a => a.1 = "id") then
    .error (.lexc ⟨"Use of \"id\" attribute in .vue files is " ++
      "discouraged. Found one in line " ++ toString pos.1 ++ "\n", false⟩)
  else .ok st'

/-- `'Unclosed tag at line %d, column %d' % self.getpos()`. -/
def unclosedMsg (pos : Nat × Nat) : String :=
  "Unclosed tag at line " ++ toString pos.1 ++ ", column " ++ toString pos.2

/-- `VueHTMLParser.handle_endtag`: pop until the matching tag; raise
`Unclosed tag` if none is found; record a top-level tag when the stack
empties. -/
def handleEndTag (st : VueParserState) (tag : String) (pos : Nat × Nat) :
    Except PyError VueParserState :=
  match st.stack.dropWhile (fun e => e.1 ≠ tag) with
  | [] =>
    .error (.lexc ⟨unclosedMsg pos, true⟩)
  | top :: stack' =>
    if top.1 ≠ tag then
      .error (.lexc ⟨unclosedMsg pos, true⟩)
    else
      let st' := { st with stack := stack' }
      if st'.stack.isEmpty then
        .ok { st' with
          tags := st'.tags ++ [(tag, top.2.1, top.2.2, (pos.1 - 1, pos.2))] }
      else .ok st'

/-- `VueHTMLParser.handle_comment`: an `id-lint ` comment toggles the id
linter according to its second word (`IndexError` when there is none). -/
def handleComment (st : VueParserState) (data : List Char) :
    Except PyError VueParserState :=
  if containsSub ("id-lint ".toList) data = false then .ok st
  else
    match pySplit (pyStrip data) with
    | _ :: w2 :: _ => .ok { st with idLinterEnabled := w2 = "on".toList }
    | _ => .error .indexError

/-- Dispatch one tokenizer event to its handler. -/
def handleEvent (st : VueParserState) : VEvent → Except PyError VueParserState
  | .startTag tag text pos attrs => handleStartTag st tag text pos attrs
  | .endTag tag pos => handleEndTag st tag pos
  | .comment data => handleComment st data

/-- `HTMLParser.feed`: run all events in order, propagating exceptions. -/
def vueFeed (st : VueParserState) (events : List VEvent) :
    Except PyError VueParserState :=
  events.foldlM handleEvent st

/-- `contents.split('\n')` on decoded text. -/
def splitNl : List Char → List (List Char)
  | [] => [[]]
  | c :: rest =>
    if c = '\n' then [] :: splitNl rest
    else
      match splitNl rest with
      | l :: ls => (c :: l) :: ls
      | [] => [[c]]

/-- The section text extracted for one recorded tag (`VueHTMLParser.parse`,
loop body): the remainder of the start line, the full lines in between, and
the prefix of the end line. -/
def sectionText (lines : List (List Char)) (starttagLen : Nat)
    (startPos endPos : Nat × Nat) : List Char :=
  let startLine := lines.getD startPos.1 []
  let lr0 := if starttagLen + startPos.2 < startLine.length then
    [startLine.drop (starttagLen + startPos.2)] else []
  let lr1 := (lines.drop (startPos.1 + 1)).take (endPos.1 - (startPos.1 + 1))
  let lr2 := if 0 < endPos.2 then [(lines.getD endPos.1 []).take endPos.2] else []
  List.intercalate ['\n'] (lr0 ++ lr1 ++ lr2)

/-- `VueHTMLParser.parse`: feed all events, then turn each recorded
top-level tag into a `(tag, starttag, section-text)` triple. -/
def vueParse (contents : List Char) (events : List VEvent) :
    Except PyError (List (String × String × List Char)) :=
  match vueFeed vueInitState events with
  | .error e => .error e
  | .ok st =>
    .ok (st.tags.map (fun t =>
      (t.1, t.2.1, sectionText (splitNl contents) t.2.1.length t.2.2.1 t.2.2.2)))

/-- The spec-side notion of a balanced event stream: start and end tags
nest exactly, and every tag is closed. -/
def balancedAux (stack : List String) : List VEvent → Bool
  | [] => stack.isEmpty
  | .startTag t _ _ _ :: rest => balancedAux (t :: stack) rest
  | .endTag t _ :: rest =>
    match stack with
    | t' :: s => t' = t && balancedAux s rest
    | [] => false
  | .comment _ :: rest => balancedAux stack rest

/-- Whether the start and end tags of an event stream balance. -/
def balancedEvents (events : List VEvent) : Bool := balancedAux [] events

/-- The position of the first end tag that finds no matching open tag on
the stack (popping non-matching tags first, as `handle_endtag` does). -/
def unmatchedEndPos (stack : List String) : List VEvent → Option (Nat × Nat)
  | [] => none
  | .startTag t _ _ _ :: rest => unmatchedEndPos (t :: stack) rest
  | .endTag t pos :: rest =>
    match stack.dropWhile (fun x => x ≠ t) with
    | [] => some pos
    | _ :: s => unmatchedEndPos s rest
  | .comment _ :: rest => unmatchedEndPos stack rest

/-- Events that cannot make `feed` raise anything except `Unclosed tag`:
no start tag carries an `id` attribute, and every `id-lint` comment has a
second word. -/
def eventSafe : VEvent → Bool
  | .startTag _ _ _ attrs => attrs.all (fun a => a.1 ≠ "id")
  | .endTag _ _ => true
  | .comment data =>
    !containsSub ("id-lint ".toList) data || 2 ≤ (pySplit (pyStrip data)).length

/-! ## linters.py — VueLinter.run_one

The actual section linters are subprocesses (`_lint_javascript`, tidy's
`_lint_html`); they enter the embedding as oracle functions returning
either new section text or a raised exception. -/

/-- `bytes.rstrip()`: drop trailing whitespace. -/
def rstripChars (l : List Char) : List Char :=
  (l.reverse.dropWhile isPyWs).reverse

/-- `'%s\n%s\n</%s>' % (starttag, body, tag)`. -/
def formatSection (starttag : String) (body : List Char) (tag : String) :
    List Char :=
  starttag.toList ++ '\n' :: body ++ '\n' :: '<' :: '/' :: tag.toList ++ ['>']

/-- The body of the `for tag, starttag, section_contents in sections` loop
of `VueLinter.run_one`: produce the new text of one section, or raise. -/
def lintOneSection (lintJS : String → List Char → Except PyError (List Char))
    (lintHTML : List Char → Bool → Except PyError (List Char))
    (filename : String) (strict : Bool)
    (sec : String × String × List Char) : Except PyError (List Char) :=
  let (tag, starttag, sectionContents) := sec
  if tag = "script" then
    match lintJS (filename ++ ".js") sectionContents with
    | .error e => .error e
    | .ok newContents => .ok (formatSection starttag newContents tag)
  else if tag = "template" then
    let wrapped := ("<!DOCTYPE html>\n<html>\n<head>\n" ++
      "<title></title>\n</head><body>\n").toList ++ sectionContents ++
      "\n</body>\n</html>".toList
    match lintHTML wrapped strict with
    | .error e => .error e
    | .ok tidied =>
      let lines := splitNl tidied
      let sliced := (lines.drop 6).take (lines.length - 3 - 6)
      .ok (formatSection starttag
        (List.intercalate ['\n'] (sliced.map rstripChars)) tag)
  else .ok (formatSection starttag sectionContents tag)

/-- The `new_sections` accumulation loop of `VueLinter.run_one`. -/
def buildNewSections (lintJS : String → List Char → Except PyError (List Char))
    (lintHTML : List Char → Bool → Except PyError (List Char))
    (filename : String) (strict : Bool) :
    List (String × String × List Char) → Except PyError (List (List Char))
  | [] => .ok []
  | sec :: rest =>
    match lintOneSection lintJS lintHTML filename strict sec with
    | .error e => .error e
    | .ok newSection =>
      match buildNewSections lintJS lintHTML filename strict rest with
      | .error e => .error e
      | .ok newRest => .ok (newSection :: newRest)

/-- `VueLinter.run_one` after parsing: lint every section, check the
section count, and join with blank lines. -/
def vueRunOneTail (lintJS : String → List Char → Except PyError (List Char))
    (lintHTML : List Char → Bool → Except PyError (List Char))
    (filename : String) (strict : Bool)
    (sections : List (String × String × List Char)) :
    Except PyError (List Char × List String) :=
  match buildNewSections lintJS lintHTML filename strict sections with
  | .error e => .error e
  | .ok newSections =>
    if newSections.length ≠ sections.length then
      .error (.lexc ⟨"Mismatched sections: expecting " ++
        toString sections.length ++ ", got " ++
        toString newSections.length, true⟩)
    else
      .ok (List.intercalate ['\n', '\n'] newSections ++ ['\n'], ["vue"])

/-- `VueLinter.run_one` with the unreachable `Mismatched sections` branch
removed. -/
def vueRunOneTailNoCheck
    (lintJS : String → List Char → Except PyError (List Char))
    (lintHTML : List Char → Bool → Except PyError (List Char))
    (filename : String) (strict : Bool)
    (sections : List (String × String × List Char)) :
    Except PyError (List Char × List String) :=
  match buildNewSections lintJS lintHTML filename strict sections with
  | .error e => .error e
  | .ok newSections =>
    .ok (List.intercalate ['\n', '\n'] newSections ++ ['\n'], ["vue"])

/-! ## lint.py — filtering, reporting, dispatch

Compiled regexes are abstracted as their `match` predicate on file names;
a linter's `run_one` is an oracle from `(filename, contents)` to either a
`(new contents, violations)` pair or a raised `LinterException`. -/

/-- A compiled regex, abstracted by its anchored `match` predicate. -/
def FileRegex : Type := String → Bool

/-- One linter entry of the configuration: `options.get('allowlist', [])`
and `options.get('denylist', [])` read these optional keys. -/
structure LinterOptions where
  allowlist : Option (List FileRegex)
  denylist : Option (List FileRegex)

/-- `options.get('allowlist', [])`. -/
def optAllowlist (o : LinterOptions) : List FileRegex := o.allowlist.getD []

/-- `options.get('denylist', [])`. -/
def optDenylist (o : LinterOptions) : List FileRegex := o.denylist.getD []

/-- The two filtering comprehensions of `lint.main`: keep the files that
match some allowlist regex, then drop the ones that match some denylist
regex. -/
def filterLinterFiles (allowlist denylist : List FileRegex)
    (files : List String) : List String :=
  let allowed := files.filter (fun filename => allowlist.any (fun r => r filename))
  allowed.filter (fun filename => denylist.all (fun r => !r filename))

/-- A linter's `run_one` as a pure oracle. -/
def LinterRunOne : Type :=
  String → List Nat → Except LinterException (List Nat × List String)

/-- `_report_linter_results`: prints in validate mode, writes the new
contents in fix mode.  The effect is returned as an explicit list of
`(filename, contents)` writes. -/
def reportLinterResults (filename : String) (newContents : List Nat)
    (validate : Bool) (fixable : Bool) :
    (String × Bool) × List (String × List Nat) :=
  if validate then ((filename, fixable), [])
  else ((filename, fixable), [(filename, newContents)])

/-- `_run_linter_one`: run one file, report exceptions and changed
contents; unchanged files produce `(None, False)` and no effect. -/
def runLinterOne (linter : LinterRunOne) (filename : String)
    (contents : List Nat) (validate : Bool) :
    (Option String × Bool) × List (String × List Nat) :=
  match linter filename contents with
  | .error lex => ((some filename, lex.fixable), [])
  | .ok (newContents, _violations) =>
    if contents = newContents then ((none, false), [])
    else
      let r := reportLinterResults filename newContents validate true
      ((some r.1.1, r.1.2), r.2)

/-- The aggregation at the end of `_run_linter`: the set of files with
violations and whether any result is fixable. -/
def runLinterAggregate (results : List (Option String × Bool)) :
    Finset String × Bool :=
  ((results.filterMap Prod.fst).toFinset, results.any Prod.snd)

/-- The per-file tasks submitted to the worker pool by `_run_linter`, in
submission order. -/
def runLinterTasks (linter : LinterRunOne) (validate : Bool)
    (files : List (String × List Nat)) : List (Option String × Bool) :=
  files.map (fun fc => (runLinterOne linter fc.1 fc.2 validate).1)

/-! ## git_tools.py — commit ranges and file enumeration

`git` itself is external: each invocation's output enters as an oracle
argument, already split on the NUL separators (`split(b'\x00')`). -/

/-- `git_tools.GIT_NULL_HASH`. -/
def GIT_NULL_HASH : String := "0000000000000000000000000000000000000000"

/-- `b'160000'`, `git_tools.GIT_DIRECTORY_ENTRY_MODE`. -/
def GIT_DIRECTORY_ENTRY_MODE : List Nat := [49, 54, 48, 48, 48, 48]

/-- ASCII decimal digit. -/
def isDigitByte (b : Nat) : Bool := 48 ≤ b && b ≤ 57

/-- ASCII lowercase hex digit, the class `[0-9a-f]`. -/
def isHexByte (b : Nat) : Bool := isDigitByte b || (97 ≤ b && b ≤ 102)

/-- The status letters `[ACDMRTUX]` as bytes. -/
def isStatusByte (b : Nat) : Bool :=
  b == 65 || b == 67 || b == 68 || b == 77 || b == 82 || b == 84 ||
  b == 85 || b == 88

/-- `GIT_DIFF_TREE_PATTERN.match`: `^:\d+ (\d+) [0-9a-f]+ [0-9a-f]+
([ACDMRTUX])\d*$`, returning the two groups (file mode, status letter). -/
def matchDiffTree (l : List Nat) : Option (List Nat × Nat) :=
  match l with
  | 58 :: r1 =>
    let d1 := r1.takeWhile isDigitByte
    if d1.isEmpty then none else
    match r1.dropWhile isDigitByte with
    | 32 :: r2 =>
      let filemode := r2.takeWhile isDigitByte
      if filemode.isEmpty then none else
      match r2.dropWhile isDigitByte with
      | 32 :: r3 =>
        if (r3.takeWhile isHexByte).isEmpty then none else
        match r3.dropWhile isHexByte with
        | 32 :: r4 =>
          if (r4.takeWhile isHexByte).isEmpty then none else
          match r4.dropWhile isHexByte with
          | 32 :: status :: r5 =>
            if isStatusByte status && r5.all isDigitByte then
              some (filemode, status) else none
          | _ => none
        | _ => none
      | _ => none
    | _ => none
  | _ => none

/-- The token-scanning loop of `_get_changed_files` (`while idx <
len(tokens) - 1`): every entry token must match the diff-tree pattern
(otherwise the `assert` fires, modelled as `none`); `C`/`R` entries consume
an extra destination token; directory entries (mode 160000) yield
nothing. -/
def parseDiffTokens : List (List Nat) → Option (List (List Nat))
  | [] => some []
  | [_] => some []
  | tok :: next :: rest =>
    match matchDiffTree tok with
    | none => none
    | some (filemode, status) =>
      if status = 67 || status = 82 then
        match rest with
        | dest :: rest2 =>
          (parseDiffTokens rest2).map (fun fs =>
            if filemode = GIT_DIRECTORY_ENTRY_MODE then fs else dest :: fs)
        | [] => none
      else
        (parseDiffTokens (next :: rest)).map (fun fs =>
          if filemode = GIT_DIRECTORY_ENTRY_MODE then fs else next :: fs)

/-- `_get_changed_files`: one commit diffs the index, two commits diff the
tree — unless the second commit is the null hash (a branch deletion), in
which case no files are yielded.  `diffIndexTokens` / `diffTreeTokens` are
the NUL-split outputs of the respective git commands. -/
def getChangedFiles (diffIndexTokens diffTreeTokens : List (List Nat))
    (commits : List String) : Option (List (List Nat)) :=
  if commits.length = 1 then parseDiffTokens diffIndexTokens
  else if commits.getLast? = some GIT_NULL_HASH then some []
  else parseDiffTokens diffTreeTokens

/-- `GIT_LS_TREE_PATTERN.match`: `^\d* blob [0-9a-f]+\t(.*)$`, returning
the file name group.  `.` does not match LF and `$` also matches just
before a trailing LF. -/
def matchLsTree (l : List Nat) : Option (List Nat) :=
  match l.dropWhile isDigitByte with
  | 32 :: 98 :: 108 :: 111 :: 98 :: 32 :: r1 =>
    if (r1.takeWhile isHexByte).isEmpty then none else
    match r1.dropWhile isHexByte with
    | 9 :: r2 =>
      let name := r2.takeWhile (fun b => b ≠ 10)
      if r2.dropWhile (fun b => b ≠ 10) = [] ∨ r2.dropWhile (fun b => b ≠ 10) = [10]
      then some name else none
    | _ => none
  | _ => none

/-- `_get_all_files`: the blob entries of `git ls-tree -r -z HEAD`,
non-matching tokens skipped. -/
def getAllFiles (lsTreeTokens : List (List Nat)) : List (List Nat) :=
  lsTreeTokens.filterMap matchLsTree

/-- Python `sorted` on strings. -/
def sortStrings (l : List String) : List String :=
  l.mergeSort (fun a b => a ≤ b)

/-- `_files_to_consider`: all files at HEAD with `--all-files`, otherwise
the files changed in the commit range; decoded (via the `dec` oracle for
UTF-8) and sorted. -/
def filesToConsider (dec : List Nat → String)
    (lsTreeTokens diffIndexTokens diffTreeTokens : List (List Nat))
    (allFiles : Bool) (commits : List String) : Option (List String) :=
  (if allFiles then some (getAllFiles lsTreeTokens)
   else getChangedFiles diffIndexTokens diffTreeTokens commits).map
    (fun fs => sortStrings (fs.map dec))

/-- `_get_explicit_file_list`: the arguments after the first `--` are
files; they (and the `--`) are removed from the argument list.  Returns
the remaining arguments and the file list. -/
def getExplicitFileList (args : List String) : List String × List String :=
  if "--" ∈ args then
    (args.take (args.indexOf "--"), args.drop (args.indexOf "--" + 1))
  else (args, [])

/-- The tail of `parse_arguments`: `args.files` is the explicit file list
when one was supplied, otherwise `_files_to_consider(args)`. -/
def argsFiles (dec : List Nat → String)
    (lsTreeTokens diffIndexTokens diffTreeTokens : List (List Nat))
    (argv : List String) (allFiles : Bool) (commits : List String) :
    Option (List String) :=
  let files := (getExplicitFileList argv).2
  if files ≠ [] then some files
  else filesToConsider dec lsTreeTokens diffIndexTokens diffTreeTokens
    allFiles commits

/-- Spec-side restatement of the candidate file list: the arguments after
`--` when that list is nonempty; otherwise all files at HEAD under
`--all-files`, else the files changed in the commit range, decoded and
sorted. -/
def candidateFilesSpec (dec : List Nat → String)
    (lsTreeTokens diffIndexTokens diffTreeTokens : List (List Nat))
    (argv : List String) (allFiles : Bool) (commits : List String) :
    Option (List String) :=
  let explicit := if "--" ∈ argv then argv.drop (argv.indexOf "--" + 1) else []
  if explicit ≠ [] then some explicit
  else if allFiles then
    some (sortStrings ((getAllFiles lsTreeTokens).map dec))
  else
    (getChangedFiles diffIndexTokens diffTreeTokens commits).map
      (fun fs => sortStrings (fs.map dec))

/-! ## Theorems -/

/-! ### Generic facts about the `chk` invariants -/

theorem chk2_cons (a : Nat) (l : List Nat) :
    chk2 (a :: l) = (!(isSpTab a && l.head?.getD 0 == 10) && chk2 l) := by
  rcases l with _ | ⟨b, l⟩ <;> simp [chk2]

theorem chk3_cons (a : Nat) (l : List Nat) :
    chk3 (a :: l) =
      (!(a == 10 && l.head?.getD 0 == 10 && l.tail.head?.getD 0 == 10) &&
        chk3 l) := by
  rcases l with _ | ⟨b, _ | ⟨c, l⟩⟩ <;> simp [chk3]

theorem chk4_cons (a : Nat) (l : List Nat) :
    chk4 (a :: l) =
      (!(a == 123 && l.head?.getD 0 == 10 && l.tail.head?.getD 0 == 10) &&
        chk4 l) := by
  rcases l with _ | ⟨b, _ | ⟨c, l⟩⟩ <;> simp [chk4]

theorem chk5_cons (a : Nat) (l : List Nat) :
    chk5 (a :: l) =
      (!(a == 10 && l.head?.getD 0 == 10 && wsThenRB l.tail) && chk5 l) := by
  rcases l with _ | ⟨b, l⟩
  · simp [chk5]
  · by_cases ha : a = 10 <;> by_cases hb : b = 10 <;> simp [ha, hb, chk5]

theorem chk2_tail {a : Nat} {l : List Nat} (h : chk2 (a :: l) = true) :
    chk2 l = true := by
  rw [chk2_cons] at h
  simp only [Bool.and_eq_true] at h
  exact h.2

theorem chk3_tail {a : Nat} {l : List Nat} (h : chk3 (a :: l) = true) :
    chk3 l = true := by
  rw [chk3_cons] at h
  simp only [Bool.and_eq_true] at h
  exact h.2

theorem chk4_tail {a : Nat} {l : List Nat} (h : chk4 (a :: l) = true) :
    chk4 l = true := by
  rw [chk4_cons] at h
  simp only [Bool.and_eq_true] at h
  exact h.2

theorem chk5_tail {a : Nat} {l : List Nat} (h : chk5 (a :: l) = true) :
    chk5 l = true := by
  rw [chk5_cons] at h
  simp only [Bool.and_eq_true] at h
  exact h.2

theorem chk2_dropWhile (p : Nat → Bool) {l : List Nat} (h : chk2 l = true) :
    chk2 (l.dropWhile p) = true := by
  induction l with
  | nil => exact h
  | cons a l ih =>
    rw [List.dropWhile_cons]
    by_cases hp : p a = true
    · simp only [hp, if_true]
      exact ih (chk2_tail h)
    · simp only [hp]
      simpa using h

theorem chk3_dropWhile (p : Nat → Bool) {l : List Nat} (h : chk3 l = true) :
    chk3 (l.dropWhile p) = true := by
  induction l with
  | nil => exact h
  | cons a l ih =>
    rw [List.dropWhile_cons]
    by_cases hp : p a = true
    · simp only [hp, if_true]
      exact ih (chk3_tail h)
    · simp only [hp]
      simpa using h

theorem chk4_dropWhile (p : Nat → Bool) {l : List Nat} (h : chk4 l = true) :
    chk4 (l.dropWhile p) = true := by
  induction l with
  | nil => exact h
  | cons a l ih =>
    rw [List.dropWhile_cons]
    by_cases hp : p a = true
    · simp only [hp, if_true]
      exact ih (chk4_tail h)
    · simp only [hp]
      simpa using h

theorem chk5_dropWhile (p : Nat → Bool) {l : List Nat} (h : chk5 l = true) :
    chk5 (l.dropWhile p) = true := by
  induction l with
  | nil => exact h
  | cons a l ih =>
    rw [List.dropWhile_cons]
    by_cases hp : p a = true
    · simp only [hp, if_true]
      exact ih (chk5_tail h)
    · simp only [hp]
      simpa using h

theorem isSpTab_ne_nl {b : Nat} (h : isSpTab b = true) : b ≠ 10 := by
  simp [isSpTab] at h
  omega

theorem isSpTab_ne_rb {b : Nat} (h : isSpTab b = true) : b ≠ 123 := by
  simp [isSpTab] at h
  omega

theorem head_getD_ne10 {l : List Nat} (h : l.head? ≠ some 10) :
    l.head?.getD 0 ≠ 10 := by
  rcases l with _ | ⟨x, l⟩
  · simp
  · simp at h ⊢
    exact h

/-- Prepending a run of spaces/tabs preserves `chk2` as long as the rest
does not start with an LF. -/
theorem chk2_append_sptab {pre l : List Nat}
    (hpre : ∀ b ∈ pre, isSpTab b = true) (hhead : l.head? ≠ some 10)
    (hl : chk2 l = true) : chk2 (pre ++ l) = true := by
  induction pre with
  | nil => exact hl
  | cons p pre ih =>
    have ihh := ih (fun b hb => hpre b (by simp [hb]))
    rw [List.cons_append, chk2_cons]
    have hne : (pre ++ l).head?.getD 0 ≠ 10 := by
      rcases pre with _ | ⟨q, pre'⟩
      · simpa using head_getD_ne10 hhead
      · have hq := hpre q (by simp)
        simpa using isSpTab_ne_nl hq
    simp [ihh]
    right
    simpa using hne

/-- Prepending a run of LFs preserves `chk2`. -/
theorem chk2_append_nl {pre l : List Nat}
    (hpre : ∀ b ∈ pre, b = 10) (hl : chk2 l = true) :
    chk2 (pre ++ l) = true := by
  induction pre with
  | nil => exact hl
  | cons p pre ih =>
    have hp := hpre p (by simp)
    rw [List.cons_append, chk2_cons, hp]
    simp [isSpTab, ih (fun b hb => hpre b (by simp [hb]))]

/-- Prepending bytes that are not LF preserves `chk3`. -/
theorem chk3_append_ne10 {pre l : List Nat}
    (hpre : ∀ b ∈ pre, b ≠ 10) (hl : chk3 l = true) :
    chk3 (pre ++ l) = true := by
  induction pre with
  | nil => exact hl
  | cons p pre ih =>
    have hp := hpre p (by simp)
    rw [List.cons_append, chk3_cons]
    simp [hp, ih (fun b hb => hpre b (by simp [hb]))]

/-- Prepending bytes that are not LBRACE preserves `chk4`. -/
theorem chk4_append_ne123 {pre l : List Nat}
    (hpre : ∀ b ∈ pre, b ≠ 123) (hl : chk4 l = true) :
    chk4 (pre ++ l) = true := by
  induction pre with
  | nil => exact hl
  | cons p pre ih =>
    have hp := hpre p (by simp)
    rw [List.cons_append, chk4_cons]
    simp [hp, ih (fun b hb => hpre b (by simp [hb]))]

/-- Prepending bytes that are not LF preserves `chk5`. -/
theorem chk5_append_ne10 {pre l : List Nat}
    (hpre : ∀ b ∈ pre, b ≠ 10) (hl : chk5 l = true) :
    chk5 (pre ++ l) = true := by
  induction pre with
  | nil => exact hl
  | cons p pre ih =>
    have hp := hpre p (by simp)
    rw [List.cons_append, chk5_cons]
    simp [hp, ih (fun b hb => hpre b (by simp [hb]))]

/-- Dropping with a weaker predicate first does not change the result of
dropping with a stronger one. -/
theorem dropWhile_dropWhile_imp (p q : Nat → Bool) {l : List Nat}
    (himp : ∀ b, p b = true → q b = true) :
    (l.dropWhile p).dropWhile q = l.dropWhile q := by
  induction l with
  | nil => rfl
  | cons a l ih =>
    by_cases hp : p a = true
    · rw [List.dropWhile_cons, if_pos hp, ih,
        List.dropWhile_cons, if_pos (himp a hp)]
    · rw [List.dropWhile_cons, if_neg hp]

/-- Dropping an all-`p` prefix commutes with an append. -/
theorem dropWhile_append_all (p : Nat → Bool) {pre l : List Nat}
    (hpre : ∀ b ∈ pre, p b = true) :
    (pre ++ l).dropWhile p = l.dropWhile p := by
  induction pre with
  | nil => rfl
  | cons a pre ih =>
    rw [List.cons_append, List.dropWhile_cons, if_pos (hpre a (by simp))]
    exact ih (fun b hb => hpre b (by simp [hb]))

theorem takeWhile_one_exists {p : Nat → Bool} {l : List Nat}
    (h : 1 ≤ (l.takeWhile p).length) :
    ∃ a t, l = a :: t ∧ p a = true := by
  rcases l with _ | ⟨a, t⟩
  · simp at h
  · rw [List.takeWhile_cons] at h
    by_cases hp : p a = true
    · exact ⟨a, t, rfl, hp⟩
    · simp [hp] at h

theorem takeWhile_two_exists {p : Nat → Bool} {l : List Nat}
    (h : 2 ≤ (l.takeWhile p).length) :
    ∃ a b t, l = a :: b :: t ∧ p a = true ∧ p b = true := by
  rcases l with _ | ⟨a, _ | ⟨b, t⟩⟩
  · simp at h
  · rw [List.takeWhile_cons] at h
    by_cases hp : p a = true <;> simp [hp, List.takeWhile_nil] at h
  · rw [List.takeWhile_cons] at h
    by_cases hpa : p a = true
    · rw [if_pos hpa, List.takeWhile_cons] at h
      by_cases hpb : p b = true
      · exact ⟨a, b, t, rfl, hpa, hpb⟩
      · simp [hpb] at h
    · simp [hpa] at h

/-! ### The first substitution: `\r\n?` -/

theorem sub1_nil : sub1 [] = [] := by
  simp [sub1]

theorem sub1_cr_lf (rest : List Nat) : sub1 (13 :: 10 :: rest) = 10 :: sub1 rest := by
  simp [sub1]

theorem sub1_cr_other {d : Nat} (rest : List Nat) (h : d ≠ 10) :
    sub1 (13 :: d :: rest) = 10 :: sub1 (d :: rest) := by
  simp [sub1, h]

theorem sub1_cr_nil : sub1 [13] = [10] := by
  simp [sub1]

theorem sub1_cons_ne13 {c : Nat} (rest : List Nat) (h : c ≠ 13) :
    sub1 (c :: rest) = c :: sub1 rest := by
  rcases rest with _ | ⟨d, r⟩ <;> simp [sub1, h]

theorem sub1_no13 (l : List Nat) : 13 ∉ sub1 l := by
  induction l using sub1.induct with
  | case1 =>
    rw [sub1_nil]
    simp
  | case2 rest2 ih =>
    rw [sub1_cr_lf]
    intro hmem
    rcases List.mem_cons.mp hmem with h | h
    · omega
    · exact ih h
  | case3 d rest2 hd ih =>
    rw [sub1_cr_other rest2 hd]
    intro hmem
    rcases List.mem_cons.mp hmem with h | h
    · omega
    · exact ih h
  | case4 =>
    rw [sub1_cr_nil]
    simp
  | case5 c rest hc ih =>
    rw [sub1_cons_ne13 rest hc]
    intro hmem
    rcases List.mem_cons.mp hmem with h | h
    · exact hc h.symm
    · exact ih h

theorem mem_sub1 {b : Nat} {l : List Nat} (h : b ∈ sub1 l) :
    b = 10 ∨ b ∈ l := by
  induction l using sub1.induct with
  | case1 =>
    rw [sub1_nil] at h
    simp at h
  | case2 rest2 ih =>
    rw [sub1_cr_lf] at h
    rcases List.mem_cons.mp h with h | h
    · exact Or.inl h
    · rcases ih h with h' | h'
      · exact Or.inl h'
      · simp [h']
  | case3 d rest2 hd ih =>
    rw [sub1_cr_other rest2 hd] at h
    rcases List.mem_cons.mp h with h | h
    · exact Or.inl h
    · rcases ih h with h' | h'
      · exact Or.inl h'
      · rcases List.mem_cons.mp h' with h'' | h'' <;> simp [h'']
  | case4 =>
    rw [sub1_cr_nil] at h
    simp at h
    exact Or.inl h
  | case5 c rest hc ih =>
    rw [sub1_cons_ne13 rest hc] at h
    rcases List.mem_cons.mp h with h | h
    · simp [h]
    · rcases ih h with h' | h'
      · exact Or.inl h'
      · simp [h']

theorem sub1_fix {l : List Nat} (h : 13 ∉ l) : sub1 l = l := by
  induction l with
  | nil => exact sub1_nil
  | cons c rest ih =>
    have hc : c ≠ 13 := by
      intro hx
      exact h (by simp [hx])
    have hrest : 13 ∉ rest := fun hx => h (by simp [hx])
    rw [sub1_cons_ne13 rest hc, ih hrest]

/-! ### The second substitution: `[ \t]+\n` -/

theorem sub2_nil : sub2 [] = [] := by
  simp [sub2]

theorem sub2_cons_not_sptab {c : Nat} (rest : List Nat)
    (h : isSpTab c = false) : sub2 (c :: rest) = c :: sub2 rest := by
  rw [sub2]
  simp [h]

theorem head?_sub2_not_sptab {l : List Nat}
    (h : ∀ b, l.head? = some b → isSpTab b = false) :
    (sub2 l).head? = l.head? := by
  rcases l with _ | ⟨c, rest⟩
  · rw [sub2_nil]
  · rw [sub2_cons_not_sptab rest (h c rfl)]
    rfl

theorem mem_sub2 {b : Nat} {l : List Nat} (h : b ∈ sub2 l) :
    b = 10 ∨ b ∈ l := by
  induction l using sub2.induct with
  | case1 => simp [sub2] at h
  | case2 c rest hc hh ih =>
    rw [sub2, if_pos hc, if_pos hh] at h
    simp at h
    rcases h with h | h
    · exact Or.inl h
    · rcases ih h with h' | h'
      · exact Or.inl h'
      · refine Or.inr ?_
        have h1 : b ∈ rest.dropWhile isSpTab :=
          List.mem_of_mem_tail h'
        simp [(List.dropWhile_sublist isSpTab).subset h1]
  | case3 c rest hc hh ih =>
    rw [sub2, if_pos hc, if_neg hh] at h
    simp at h
    rcases h with h | h | h
    · simp [h]
    · refine Or.inr ?_
      simp [(List.takeWhile_sublist isSpTab).subset h]
    · rcases ih h with h' | h'
      · exact Or.inl h'
      · refine Or.inr ?_
        simp [(List.dropWhile_sublist isSpTab).subset h']
  | case4 c rest hc ih =>
    rw [sub2_cons_not_sptab rest (by simpa using hc)] at h
    simp at h
    rcases h with h | h
    · simp [h]
    · rcases ih h with h' | h'
      · exact Or.inl h'
      · simp [h']

/-- If `chk2` holds on `c :: rest` with `c` a space/tab, the first
non-space/tab byte of `rest` is not an LF. -/
theorem no_sptab_before_nl {c : Nat} {rest : List Nat}
    (h : chk2 (c :: rest) = true) (hc : isSpTab c = true) :
    (rest.dropWhile isSpTab).head? ≠ some 10 := by
  induction rest generalizing c with
  | nil => simp
  | cons d r ih =>
    rw [chk2_cons] at h
    simp only [Bool.and_eq_true] at h
    rcases h with ⟨hpair, htl⟩
    rw [List.dropWhile_cons]
    by_cases hd : isSpTab d = true
    · rw [if_pos hd]
      exact ih htl hd
    · rw [if_neg hd]
      simp [hc] at hpair
      simpa using hpair

theorem sub2_fix {l : List Nat} (h : chk2 l = true) : sub2 l = l := by
  induction l using sub2.induct with
  | case1 => exact sub2_nil
  | case2 c rest hc hh ih =>
    exact absurd hh (no_sptab_before_nl h hc)
  | case3 c rest hc hh ih =>
    rw [sub2, if_pos hc, if_neg hh]
    rw [ih (chk2_dropWhile isSpTab (chk2_tail h))]
    simp [List.takeWhile_append_dropWhile]
  | case4 c rest hc ih =>
    rw [sub2_cons_not_sptab rest (by simpa using hc)]
    rw [ih (chk2_tail h)]

theorem sub2_chk2 (l : List Nat) : chk2 (sub2 l) = true := by
  induction l using sub2.induct with
  | case1 =>
    rw [sub2_nil]
    rfl
  | case2 c rest hc hh ih =>
    rw [sub2, if_pos hc, if_pos hh, chk2_cons]
    simp [isSpTab, ih]
  | case3 c rest hc hh ih =>
    rw [sub2, if_pos hc, if_neg hh]
    have hdropfact := List.head?_dropWhile_not isSpTab rest
    have hhead2 : (sub2 (rest.dropWhile isSpTab)).head? =
        (rest.dropWhile isSpTab).head? := by
      apply head?_sub2_not_sptab
      intro b hb
      rw [hb] at hdropfact
      exact hdropfact
    refine chk2_append_sptab ?_ ?_ ih
    · intro b hb
      simp at hb
      rcases hb with hb | hb
      · rw [hb]
        exact hc
      · exact List.mem_takeWhile_imp hb
    · rw [hhead2]
      exact hh
  | case4 c rest hc ih =>
    rw [sub2_cons_not_sptab rest (by simpa using hc), chk2_cons]
    simp only [Bool.and_eq_true, ih, and_true]
    simp [show isSpTab c = false from by simpa using hc]

/-! ### The third substitution: `\n\n\n+` -/

theorem dropWhile_head_not {p : Nat → Bool} {l : List Nat} {b : Nat}
    (h : (l.dropWhile p).head? = some b) : p b = false := by
  have := List.head?_dropWhile_not p l
  rw [h] at this
  exact this

theorem dropWhile_head_getD_ne10 {p : Nat → Bool} (hp : p 10 = true)
    (l : List Nat) : (l.dropWhile p).head?.getD 0 ≠ 10 := by
  rcases h : (l.dropWhile p).head? with _ | b
  · simp
  · have hb := dropWhile_head_not h
    simp
    intro hx
    rw [hx] at hb
    rw [hb] at hp
    cases hp

theorem takeWhile_nil_dropWhile {p : Nat → Bool} {l : List Nat}
    (h : l.takeWhile p = []) : l.dropWhile p = l := by
  rcases l with _ | ⟨c, rest⟩
  · rfl
  · rw [List.takeWhile_cons] at h
    by_cases hp : p c = true
    · simp [hp] at h
    · rw [List.dropWhile_cons, if_neg hp]

theorem takeWhile_nil_head_getD {p : Nat → Bool} {l : List Nat}
    (h : l.takeWhile p = []) (h0 : p 0 = false) : p (l.head?.getD 0) = false := by
  rcases l with _ | ⟨c, rest⟩
  · simpa using h0
  · rw [List.takeWhile_cons] at h
    by_cases hp : p c = true
    · simp [hp] at h
    · simpa using hp

theorem sub3_nil : sub3 [] = [] := by
  simp [sub3]

theorem sub3_cons_ne10 {c : Nat} (rest : List Nat) (h : c ≠ 10) :
    sub3 (c :: rest) = c :: sub3 rest := by
  simp [sub3, h]

theorem sub3_run_long (rest : List Nat)
    (h : 2 ≤ (rest.takeWhile (fun d => d == 10)).length) :
    sub3 (10 :: rest) = 10 :: 10 :: sub3 (rest.dropWhile (fun d => d == 10)) := by
  rw [sub3]
  simp [h]

theorem sub3_run_short (rest : List Nat)
    (h : ¬2 ≤ (rest.takeWhile (fun d => d == 10)).length) :
    sub3 (10 :: rest) =
      (10 :: rest.takeWhile (fun d => d == 10)) ++
        sub3 (rest.dropWhile (fun d => d == 10)) := by
  rw [sub3]
  simp [h]

theorem head?_sub3 (l : List Nat) : (sub3 l).head? = l.head? := by
  rcases l with _ | ⟨c, rest⟩
  · rw [sub3_nil]
  · by_cases hc : c = 10
    · subst hc
      by_cases h2 : 2 ≤ (rest.takeWhile (fun d => d == 10)).length
      · rw [sub3_run_long rest h2]
        rfl
      · rw [sub3_run_short rest h2]
        rfl
    · rw [sub3_cons_ne10 rest hc]
      rfl

theorem mem_sub3 {b : Nat} {l : List Nat} (h : b ∈ sub3 l) :
    b = 10 ∨ b ∈ l := by
  induction l using sub3.induct with
  | case1 =>
    rw [sub3_nil] at h
    simp at h
  | case2 rest h2 ih =>
    rw [sub3_run_long rest h2] at h
    rcases List.mem_cons.mp h with h | h
    · exact Or.inl h
    · rcases List.mem_cons.mp h with h | h
      · exact Or.inl h
      · rcases ih h with h' | h'
        · exact Or.inl h'
        · exact Or.inr (by
            simp [(List.dropWhile_sublist (fun d => d == 10)).subset h'])
  | case3 rest h2 ih =>
    rw [sub3_run_short rest h2] at h
    rcases List.mem_append.mp h with h | h
    · rcases List.mem_cons.mp h with h | h
      · exact Or.inl h
      · exact Or.inr (by
          simp [(List.takeWhile_sublist (fun d => d == 10)).subset h])
    · rcases ih h with h' | h'
      · exact Or.inl h'
      · exact Or.inr (by
          simp [(List.dropWhile_sublist (fun d => d == 10)).subset h'])
  | case4 c rest hc ih =>
    rw [sub3_cons_ne10 rest hc] at h
    rcases List.mem_cons.mp h with h | h
    · simp [h]
    · rcases ih h with h' | h'
      · exact Or.inl h'
      · simp [h']

theorem sub3_chk3 (l : List Nat) : chk3 (sub3 l) = true := by
  induction l using sub3.induct with
  | case1 =>
    rw [sub3_nil]
    rfl
  | case2 rest h2 ih =>
    rw [sub3_run_long rest h2]
    have hne : (sub3 (rest.dropWhile (fun d => d == 10))).head?.getD 0 ≠ 10 := by
      rw [head?_sub3]
      exact dropWhile_head_getD_ne10 (by simp) rest
    rw [chk3_cons, chk3_cons]
    simp [hne, ih]
  | case3 rest h2 ih =>
    have hdw : (sub3 (rest.dropWhile (fun d => d == 10))).head?.getD 0 ≠ 10 := by
      rw [head?_sub3]
      exact dropWhile_head_getD_ne10 (by simp) rest
    rw [sub3_run_short rest h2]
    rcases hrun : rest.takeWhile (fun d => d == 10) with _ | ⟨r1, run'⟩
    · rw [takeWhile_nil_dropWhile hrun] at ih ⊢
      have hh : (sub3 rest).head?.getD 0 ≠ 10 := by
        rw [head?_sub3]
        have := takeWhile_nil_head_getD hrun (by simp)
        simpa using this
      rw [show ((10 :: ([] : List Nat)) ++ sub3 rest) = 10 :: sub3 rest by simp,
        chk3_cons]
      simp [hh, ih]
    · have hr1 : r1 = 10 := by
        have hmem : r1 ∈ rest.takeWhile (fun d => d == 10) := by
          rw [hrun]
          simp
        have := List.mem_takeWhile_imp hmem
        simpa using this
      rcases run' with _ | ⟨r2, run''⟩
      · subst hr1
        rw [show ((10 :: [10]) ++ sub3 (rest.dropWhile (fun d => d == 10))) =
          10 :: 10 :: sub3 (rest.dropWhile (fun d => d == 10)) by simp,
          chk3_cons, chk3_cons]
        simp [hdw, ih]
      · exfalso
        apply h2
        rw [hrun]
        simp
  | case4 c rest hc ih =>
    rw [sub3_cons_ne10 rest hc, chk3_cons]
    simp [hc, ih]

theorem sub3_fix {l : List Nat} (h : chk3 l = true) : sub3 l = l := by
  induction l using sub3.induct with
  | case1 => exact sub3_nil
  | case2 rest h2 ih =>
    exfalso
    rcases takeWhile_two_exists h2 with ⟨a, b, t, hrest, ha, hb⟩
    have ha' : a = 10 := by simpa using ha
    have hb' : b = 10 := by simpa using hb
    subst hrest ha' hb'
    rw [chk3_cons] at h
    simp at h
  | case3 rest h2 ih =>
    rw [sub3_run_short rest h2,
      ih (chk3_dropWhile (fun d => d == 10) (chk3_tail h)),
      List.cons_append, List.takeWhile_append_dropWhile]
  | case4 c rest hc ih =>
    rw [sub3_cons_ne10 rest hc, ih (chk3_tail h)]

theorem chk2_sub3 {l : List Nat} (h : chk2 l = true) : chk2 (sub3 l) = true := by
  induction l using sub3.induct with
  | case1 =>
    rw [sub3_nil]
    rfl
  | case2 rest h2 ih =>
    rw [sub3_run_long rest h2, chk2_cons, chk2_cons]
    simp [isSpTab, ih (chk2_dropWhile (fun d => d == 10) (chk2_tail h))]
  | case3 rest h2 ih =>
    rw [sub3_run_short rest h2]
    refine chk2_append_nl ?_ (ih (chk2_dropWhile (fun d => d == 10) (chk2_tail h)))
    intro b hb
    rcases List.mem_cons.mp hb with hb | hb
    · exact hb
    · simpa using List.mem_takeWhile_imp hb
  | case4 c rest hc ih =>
    rw [sub3_cons_ne10 rest hc, chk2_cons, head?_sub3]
    rw [chk2_cons] at h
    simp only [Bool.and_eq_true] at h ⊢
    exact ⟨h.1, ih h.2⟩

/-! ### The fourth substitution: `{\n\n+` -/

theorem sub4_nil : sub4 [] = [] := by
  simp [sub4]

theorem sub4_cons_ne123 {c : Nat} (rest : List Nat) (h : c ≠ 123) :
    sub4 (c :: rest) = c :: sub4 rest := by
  simp [sub4, h]

theorem sub4_run_long (rest : List Nat)
    (h : 2 ≤ (rest.takeWhile (fun d => d == 10)).length) :
    sub4 (123 :: rest) = 123 :: 10 :: sub4 (rest.dropWhile (fun d => d == 10)) := by
  rw [sub4]
  simp [h]

theorem sub4_run_short (rest : List Nat)
    (h : ¬2 ≤ (rest.takeWhile (fun d => d == 10)).length) :
    sub4 (123 :: rest) = 123 :: sub4 rest := by
  rw [sub4]
  simp [h]

theorem head?_sub4 (l : List Nat) : (sub4 l).head? = l.head? := by
  rcases l with _ | ⟨c, rest⟩
  · rw [sub4_nil]
  · by_cases hc : c = 123
    · subst hc
      by_cases h2 : 2 ≤ (rest.takeWhile (fun d => d == 10)).length
      · rw [sub4_run_long rest h2]
        rfl
      · rw [sub4_run_short rest h2]
        rfl
    · rw [sub4_cons_ne123 rest hc]
      rfl

theorem second_nl_sub4 {l : List Nat}
    (h : (sub4 l).tail.head? = some 10) : l.tail.head? = some 10 := by
  rcases l with _ | ⟨c, rest⟩
  · rw [sub4_nil] at h
    simp at h
  · by_cases hc : c = 123
    · subst hc
      by_cases h2 : 2 ≤ (rest.takeWhile (fun d => d == 10)).length
      · rcases takeWhile_two_exists h2 with ⟨a, b, t, hrest, ha, hb⟩
        have ha' : a = 10 := by simpa using ha
        subst hrest ha'
        rfl
      · rw [sub4_run_short rest h2] at h
        simp only [List.tail_cons] at h ⊢
        rw [head?_sub4] at h
        exact h
    · rw [sub4_cons_ne123 rest hc] at h
      simp only [List.tail_cons] at h ⊢
      rw [head?_sub4] at h
      exact h

theorem mem_sub4 {b : Nat} {l : List Nat} (h : b ∈ sub4 l) :
    b = 10 ∨ b ∈ l := by
  induction l using sub4.induct with
  | case1 =>
    rw [sub4_nil] at h
    simp at h
  | case2 rest h2 ih =>
    rw [sub4_run_long rest h2] at h
    rcases List.mem_cons.mp h with h | h
    · simp [h]
    · rcases List.mem_cons.mp h with h | h
      · exact Or.inl h
      · rcases ih h with h' | h'
        · exact Or.inl h'
        · exact Or.inr (by
            simp [(List.dropWhile_sublist (fun d => d == 10)).subset h'])
  | case3 rest h2 ih =>
    rw [sub4_run_short rest h2] at h
    rcases List.mem_cons.mp h with h | h
    · simp [h]
    · rcases ih h with h' | h'
      · exact Or.inl h'
      · simp [h']
  | case4 c rest hc ih =>
    rw [sub4_cons_ne123 rest hc] at h
    rcases List.mem_cons.mp h with h | h
    · simp [h]
    · rcases ih h with h' | h'
      · exact Or.inl h'
      · simp [h']

theorem sub4_chk4 (l : List Nat) : chk4 (sub4 l) = true := by
  induction l using sub4.induct with
  | case1 =>
    rw [sub4_nil]
    rfl
  | case2 rest h2 ih =>
    rw [sub4_run_long rest h2]
    have hne : (sub4 (rest.dropWhile (fun d => d == 10))).head?.getD 0 ≠ 10 := by
      rw [head?_sub4]
      exact dropWhile_head_getD_ne10 (by simp) rest
    rw [chk4_cons, chk4_cons]
    simp [hne, ih]
  | case3 rest h2 ih =>
    rw [sub4_run_short rest h2, chk4_cons]
    simp only [Bool.and_eq_true, ih, and_true]
    rw [head?_sub4]
    by_cases hh : rest.head?.getD 0 = 10
    · rcases rest with _ | ⟨r1, rest'⟩
      · simp at hh
      · simp at hh
        subst hh
        have hne : (sub4 (10 :: rest')).tail.head?.getD 0 ≠ 10 := by
          intro hx
          have hsome : (sub4 (10 :: rest')).tail.head? = some 10 := by
            rcases hy : (sub4 (10 :: rest')).tail.head? with _ | y
            · rw [hy] at hx
              simp at hx
            · rw [hy] at hx
              simp at hx
              rw [hx]
          have := second_nl_sub4 hsome
          simp only [List.tail_cons] at this
          apply h2
          rcases rest' with _ | ⟨r2, rest''⟩
          · simp at this
          · simp at this
            subst this
            simp
        simp only [List.head?_tail] at hne
        simp [hne]
    · simp [hh]
  | case4 c rest hc ih =>
    rw [sub4_cons_ne123 rest hc, chk4_cons]
    simp [hc, ih]

theorem sub4_fix {l : List Nat} (h : chk4 l = true) : sub4 l = l := by
  induction l using sub4.induct with
  | case1 => exact sub4_nil
  | case2 rest h2 ih =>
    exfalso
    rcases takeWhile_two_exists h2 with ⟨a, b, t, hrest, ha, hb⟩
    have ha' : a = 10 := by simpa using ha
    have hb' : b = 10 := by simpa using hb
    subst hrest ha' hb'
    rw [chk4_cons] at h
    simp at h
  | case3 rest h2 ih =>
    rw [sub4_run_short rest h2, ih (chk4_tail h)]
  | case4 c rest hc ih =>
    rw [sub4_cons_ne123 rest hc, ih (chk4_tail h)]

theorem chk2_sub4 {l : List Nat} (h : chk2 l = true) : chk2 (sub4 l) = true := by
  induction l using sub4.induct with
  | case1 =>
    rw [sub4_nil]
    rfl
  | case2 rest h2 ih =>
    rw [sub4_run_long rest h2, chk2_cons, chk2_cons]
    simp [isSpTab, ih (chk2_dropWhile (fun d => d == 10) (chk2_tail h))]
  | case3 rest h2 ih =>
    rw [sub4_run_short rest h2, chk2_cons]
    simp [isSpTab, ih (chk2_tail h)]
  | case4 c rest hc ih =>
    rw [sub4_cons_ne123 rest hc, chk2_cons, head?_sub4]
    rw [chk2_cons] at h
    simp only [Bool.and_eq_true] at h ⊢
    exact ⟨h.1, ih h.2⟩

theorem chk3_sub4 {l : List Nat} (h : chk3 l = true) : chk3 (sub4 l) = true := by
  induction l using sub4.induct with
  | case1 =>
    rw [sub4_nil]
    rfl
  | case2 rest h2 ih =>
    rw [sub4_run_long rest h2]
    have hne : (sub4 (rest.dropWhile (fun d => d == 10))).head?.getD 0 ≠ 10 := by
      rw [head?_sub4]
      exact dropWhile_head_getD_ne10 (by simp) rest
    rw [chk3_cons, chk3_cons]
    simp [hne, ih (chk3_dropWhile (fun d => d == 10) (chk3_tail h))]
  | case3 rest h2 ih =>
    rw [sub4_run_short rest h2, chk3_cons]
    simp [ih (chk3_tail h)]
  | case4 c rest hc ih =>
    rw [sub4_cons_ne123 rest hc, chk3_cons]
    simp only [Bool.and_eq_true, ih (chk3_tail h), and_true]
    by_cases hc10 : c = 10
    · subst hc10
      rw [head?_sub4]
      by_cases hh : rest.head?.getD 0 = 10
      · have hne : (sub4 rest).tail.head?.getD 0 ≠ 10 := by
          intro hx
          have hsome : (sub4 rest).tail.head? = some 10 := by
            rcases hy : (sub4 rest).tail.head? with _ | y
            · rw [hy] at hx
              simp at hx
            · rw [hy] at hx
              simp at hx
              rw [hx]
          have h2nd := second_nl_sub4 hsome
          rw [chk3_cons] at h
          simp only [Bool.and_eq_true] at h
          rcases h with ⟨hbad, _⟩
          rcases rest with _ | ⟨r1, rest'⟩
          · simp at hh
          · simp at hh
            subst hh
            simp only [List.tail_cons] at h2nd
            rcases rest' with _ | ⟨r2, rest''⟩
            · simp at h2nd
            · simp at h2nd
              subst h2nd
              simp at hbad
        simp only [List.head?_tail] at hne
        simp [hne]
      · simp [hh]
    · simp [hc10]

/-! ### The fifth substitution: `\n+\n(\s*})` -/

theorem sub5_nil : sub5 [] = [] := by
  simp [sub5]

theorem sub5_cons_ne10 {c : Nat} (rest : List Nat) (h : c ≠ 10) :
    sub5 (c :: rest) = c :: sub5 rest := by
  simp [sub5, h]

theorem sub5_single (rest : List Nat)
    (h : ¬1 ≤ (rest.takeWhile (fun d => d == 10)).length) :
    sub5 (10 :: rest) = 10 :: sub5 rest := by
  rw [sub5]
  simp [h]

theorem sub5_match (rest : List Nat)
    (h1 : 1 ≤ (rest.takeWhile (fun d => d == 10)).length)
    (h125 : ((rest.dropWhile (fun d => d == 10)).dropWhile isWs).head? = some 125) :
    sub5 (10 :: rest) =
      10 :: (rest.dropWhile (fun d => d == 10)).takeWhile isWs ++
        125 :: sub5 ((rest.dropWhile (fun d => d == 10)).dropWhile isWs).tail := by
  rw [sub5]
  simp [h1, h125]

theorem sub5_nomatch (rest : List Nat)
    (h1 : 1 ≤ (rest.takeWhile (fun d => d == 10)).length)
    (h125 : ¬((rest.dropWhile (fun d => d == 10)).dropWhile isWs).head? = some 125) :
    sub5 (10 :: rest) =
      (10 :: rest.takeWhile (fun d => d == 10)) ++
        (rest.dropWhile (fun d => d == 10)).takeWhile isWs ++
        sub5 ((rest.dropWhile (fun d => d == 10)).dropWhile isWs) := by
  rw [sub5]
  simp [h1, h125]

theorem head?_sub5 (l : List Nat) : (sub5 l).head? = l.head? := by
  rcases l with _ | ⟨c, rest⟩
  · rw [sub5_nil]
  · by_cases hc : c = 10
    · subst hc
      by_cases h1 : 1 ≤ (rest.takeWhile (fun d => d == 10)).length
      · by_cases h125 :
          ((rest.dropWhile (fun d => d == 10)).dropWhile isWs).head? = some 125
        · rw [sub5_match rest h1 h125]
          rfl
        · rw [sub5_nomatch rest h1 h125]
          rfl
      · rw [sub5_single rest h1]
        rfl
    · rw [sub5_cons_ne10 rest hc]
      rfl

theorem second_nl_sub5 {l : List Nat}
    (h : (sub5 l).tail.head? = some 10) : l.tail.head? = some 10 := by
  rcases l with _ | ⟨c, rest⟩
  · rw [sub5_nil] at h
    simp at h
  · simp only [List.tail_cons]
    by_cases hc : c = 10
    · subst hc
      by_cases h1 : 1 ≤ (rest.takeWhile (fun d => d == 10)).length
      · rcases takeWhile_one_exists h1 with ⟨a, t, hrest, ha⟩
        have ha' : a = 10 := by simpa using ha
        subst hrest ha'
        rfl
      · rw [sub5_single rest h1] at h
        simp only [List.tail_cons] at h
        rw [head?_sub5] at h
        exact h
    · rw [sub5_cons_ne10 rest hc] at h
      simp only [List.tail_cons] at h
      rw [head?_sub5] at h
      exact h

theorem not_mem_tail {b : Nat} {l : List Nat} (h : b ∉ l) : b ∉ l.tail :=
  fun hb => h ((List.tail_sublist l).subset hb)

theorem not_mem_dropWhile (p : Nat → Bool) {b : Nat} {l : List Nat}
    (h : b ∉ l) : b ∉ l.dropWhile p :=
  fun hb => h ((List.dropWhile_sublist p).subset hb)

theorem dropWhile_nl_head_ne (l : List Nat) :
    (l.dropWhile (fun d => d == 10)).head? ≠ some 10 := by
  rcases h : (l.dropWhile (fun d => d == 10)).head? with _ | b
  · simp
  · have := dropWhile_head_not h
    simp at this
    simp [this]

theorem mem_sub5 {b : Nat} {l : List Nat} (h : b ∈ sub5 l) :
    b = 10 ∨ b ∈ l := by
  induction l using sub5.induct with
  | case1 =>
    rw [sub5_nil] at h
    simp at h
  | case2 rest h1 h125 ih =>
    rw [sub5_match rest h1 h125] at h
    rcases List.mem_cons.mp h with h | h
    · exact Or.inl h
    · rcases List.mem_append.mp h with h | h
      · refine Or.inr ?_
        have h' := (List.takeWhile_sublist isWs).subset h
        have h'' := (List.dropWhile_sublist (fun d => d == 10)).subset h'
        simp [h'']
      · rcases List.mem_cons.mp h with h | h
        · refine Or.inr ?_
          have h125mem : (125 : Nat) ∈
              (rest.dropWhile (fun d => d == 10)).dropWhile isWs := by
            rcases hL : (rest.dropWhile (fun d => d == 10)).dropWhile isWs with
              _ | ⟨x, t⟩
            · rw [hL] at h125
              simp at h125
            · rw [hL] at h125
              simp at h125
              simp [h125]
          have h' := (List.dropWhile_sublist isWs).subset h125mem
          have h'' := (List.dropWhile_sublist (fun d => d == 10)).subset h'
          rw [h]
          simp [h'']
        · rcases ih h with h' | h'
          · exact Or.inl h'
          · refine Or.inr ?_
            have h1' := (List.tail_sublist
              ((rest.dropWhile (fun d => d == 10)).dropWhile isWs)).subset h'
            have h2' := (List.dropWhile_sublist isWs).subset h1'
            have h3' := (List.dropWhile_sublist (fun d => d == 10)).subset h2'
            simp [h3']
  | case3 rest h1 h125 ih =>
    rw [sub5_nomatch rest h1 h125] at h
    simp only [List.append_assoc, List.cons_append, List.mem_cons,
      List.mem_append] at h
    rcases h with h | h | h | h
    · exact Or.inl h
    · refine Or.inr ?_
      simp [(List.takeWhile_sublist (fun d => d == 10)).subset h]
    · refine Or.inr ?_
      have h' := (List.takeWhile_sublist isWs).subset h
      have h'' := (List.dropWhile_sublist (fun d => d == 10)).subset h'
      simp [h'']
    · rcases ih h with h' | h'
      · exact Or.inl h'
      · refine Or.inr ?_
        have h2' := (List.dropWhile_sublist isWs).subset h'
        have h3' := (List.dropWhile_sublist (fun d => d == 10)).subset h2'
        simp [h3']
  | case4 rest h1 ih =>
    rw [sub5_single rest h1] at h
    rcases List.mem_cons.mp h with h | h
    · exact Or.inl h
    · rcases ih h with h' | h'
      · exact Or.inl h'
      · simp [h']
  | case5 c rest hc ih =>
    rw [sub5_cons_ne10 rest hc] at h
    rcases List.mem_cons.mp h with h | h
    · simp [h]
    · rcases ih h with h' | h'
      · exact Or.inl h'
      · simp [h']

/-- In contents with no VT/FF/CR and no space/tab before an LF, a
whitespace run that does not start with an LF is all spaces/tabs. -/
theorem ws_run_sptab {l : List Nat} (h11 : 11 ∉ l) (h12 : 12 ∉ l)
    (h13 : 13 ∉ l) (hchk2 : chk2 l = true) (hhead : l.head? ≠ some 10) :
    ∀ b ∈ l.takeWhile isWs, isSpTab b = true := by
  induction l with
  | nil => simp
  | cons c rest ih =>
    by_cases hw : isWs c = true
    · rw [List.takeWhile_cons, if_pos hw]
      intro b hb
      rcases List.mem_cons.mp hb with hb | hb
      · subst hb
        have hb10 : b ≠ 10 := by
          intro hx
          exact hhead (by simp [hx])
        have hb11 : b ≠ 11 := fun hx => h11 (by simp [hx])
        have hb12 : b ≠ 12 := fun hx => h12 (by simp [hx])
        have hb13 : b ≠ 13 := fun hx => h13 (by simp [hx])
        simp [isWs] at hw
        simp [isSpTab]
        omega
      · have hc10 : c ≠ 10 := by
          intro hx
          exact hhead (by simp [hx])
        have hsp : isSpTab c = true := by
          have hc11 : c ≠ 11 := fun hx => h11 (by simp [hx])
          have hc12 : c ≠ 12 := fun hx => h12 (by simp [hx])
          have hc13 : c ≠ 13 := fun hx => h13 (by simp [hx])
          simp [isWs] at hw
          simp [isSpTab]
          omega
        have hresthead : rest.head? ≠ some 10 := by
          rw [chk2_cons] at hchk2
          simp only [Bool.and_eq_true] at hchk2
          rcases hchk2 with ⟨hpair, _⟩
          intro hx
          rw [hx] at hpair
          simp [hsp] at hpair
        exact ih (fun hx => h11 (by simp [hx])) (fun hx => h12 (by simp [hx]))
          (fun hx => h13 (by simp [hx])) (chk2_tail hchk2) hresthead b hb
    · rw [List.takeWhile_cons, if_neg hw]
      simp

theorem chk2_tail' {l : List Nat} (h : chk2 l = true) : chk2 l.tail = true := by
  rcases l with _ | ⟨a, l⟩
  · exact h
  · exact chk2_tail h

theorem chk3_tail' {l : List Nat} (h : chk3 l = true) : chk3 l.tail = true := by
  rcases l with _ | ⟨a, l⟩
  · exact h
  · exact chk3_tail h

theorem chk4_tail' {l : List Nat} (h : chk4 l = true) : chk4 l.tail = true := by
  rcases l with _ | ⟨a, l⟩
  · exact h
  · exact chk4_tail h

theorem chk5_tail' {l : List Nat} (h : chk5 l = true) : chk5 l.tail = true := by
  rcases l with _ | ⟨a, l⟩
  · exact h
  · exact chk5_tail h

theorem wsThenRB_append_ws {pre X : List Nat}
    (hpre : ∀ b ∈ pre, isWs b = true) :
    wsThenRB (pre ++ X) = wsThenRB X := by
  unfold wsThenRB
  rw [dropWhile_append_all isWs hpre]

theorem wsThenRB_false_of {X : List Nat}
    (hws : ∀ b, X.head? = some b → isWs b = false)
    (h125 : X.head? ≠ some 125) : wsThenRB X = false := by
  unfold wsThenRB
  rcases X with _ | ⟨x, t⟩
  · simp [List.dropWhile]
  · rw [List.dropWhile_cons, if_neg (by simp [hws x rfl])]
    simp
    intro hx
    exact h125 (by simp [hx])

/-- In `chk3`-normalized contents, a run of at least two LFs is exactly
two: the tail after the leading LF starts with one more LF and then a
non-LF byte. -/
theorem run_single_of_chk3 {rest : List Nat}
    (hchk3 : chk3 (10 :: rest) = true)
    (h1 : 1 ≤ (rest.takeWhile (fun d => d == 10)).length) :
    ∃ t, rest = 10 :: t ∧ t.takeWhile (fun d => d == 10) = [] := by
  rcases takeWhile_one_exists h1 with ⟨a, t, hrest, ha⟩
  have ha' : a = 10 := by simpa using ha
  subst ha'
  subst hrest
  refine ⟨t, rfl, ?_⟩
  rcases htw : t.takeWhile (fun d => d == 10) with _ | ⟨x, xs⟩
  · rfl
  · exfalso
    have hx1 : 1 ≤ (t.takeWhile (fun d => d == 10)).length := by
      rw [htw]
      simp
    rcases takeWhile_one_exists hx1 with ⟨a', t', ht, ha''⟩
    have ha''' : a' = 10 := by simpa using ha''
    subst ha'''
    subst ht
    rw [chk3_cons] at hchk3
    simp at hchk3

theorem sub5_chk5 {l : List Nat} (h11 : 11 ∉ l) (h12 : 12 ∉ l) (h13 : 13 ∉ l)
    (hchk2 : chk2 l = true) (hchk3 : chk3 l = true) :
    chk5 (sub5 l) = true := by
  induction l using sub5.induct with
  | case1 =>
    rw [sub5_nil]
    rfl
  | case2 rest h1 h125 ih =>
    rw [sub5_match rest h1 h125]
    have hreststack : 11 ∉ rest ∧ 12 ∉ rest ∧ 13 ∉ rest :=
      ⟨fun hb => h11 (by simp [hb]), fun hb => h12 (by simp [hb]),
        fun hb => h13 (by simp [hb])⟩
    have hw : ∀ b ∈ (rest.dropWhile (fun d => d == 10)).takeWhile isWs,
        isSpTab b = true :=
      ws_run_sptab (not_mem_dropWhile _ hreststack.1)
        (not_mem_dropWhile _ hreststack.2.1)
        (not_mem_dropWhile _ hreststack.2.2)
        (chk2_dropWhile _ (chk2_tail hchk2)) (dropWhile_nl_head_ne rest)
    have hih : chk5 (sub5 ((rest.dropWhile (fun d => d == 10)).dropWhile
        isWs).tail) = true := by
      apply ih
      · exact not_mem_tail (not_mem_dropWhile _ (not_mem_dropWhile _
          hreststack.1))
      · exact not_mem_tail (not_mem_dropWhile _ (not_mem_dropWhile _
          hreststack.2.1))
      · exact not_mem_tail (not_mem_dropWhile _ (not_mem_dropWhile _
          hreststack.2.2))
      · exact chk2_tail' (chk2_dropWhile _ (chk2_dropWhile _ (chk2_tail hchk2)))
      · exact chk3_tail' (chk3_dropWhile _ (chk3_dropWhile _ (chk3_tail hchk3)))
    have hX : chk5 ((rest.dropWhile (fun d => d == 10)).takeWhile isWs ++
        125 :: sub5 ((rest.dropWhile (fun d => d == 10)).dropWhile isWs).tail) =
        true := by
      refine chk5_append_ne10 (fun b hb => isSpTab_ne_nl (hw b hb)) ?_
      rw [chk5_cons]
      simp [hih]
    rw [List.cons_append, chk5_cons]
    simp [hX]
    left
    rcases hwlist : (rest.dropWhile (fun d => d == 10)).takeWhile isWs with
      _ | ⟨b, w'⟩
    · simp
    · have hb := hw b (by rw [hwlist]; simp)
      simpa using isSpTab_ne_nl hb
  | case3 rest h1 h125 ih =>
    rcases run_single_of_chk3 hchk3 h1 with ⟨t, hrest, htw⟩
    subst hrest
    have htdrop : t.dropWhile (fun d => d == 10) = t := takeWhile_nil_dropWhile htw
    have hrewrite : (10 :: t).dropWhile (fun d => d == 10) = t := by
      rw [List.dropWhile_cons]
      simp [htdrop]
    have hruntw : (10 :: t).takeWhile (fun d => d == 10) = [10] := by
      rw [List.takeWhile_cons]
      simp [htw]
    rw [sub5_nomatch (10 :: t) h1 h125, hrewrite, hruntw]
    rw [hrewrite] at h125 ih
    have htmem : 11 ∉ t ∧ 12 ∉ t ∧ 13 ∉ t :=
      ⟨fun hb => h11 (by simp [hb]), fun hb => h12 (by simp [hb]),
        fun hb => h13 (by simp [hb])⟩
    have hchk2t : chk2 t = true := chk2_tail (chk2_tail hchk2)
    have hchk3t : chk3 t = true := chk3_tail (chk3_tail hchk3)
    have hthead : t.head? ≠ some 10 := by
      intro hx
      rcases t with _ | ⟨x, t'⟩
      · simp at hx
      · simp at hx
        rw [List.takeWhile_cons] at htw
        simp [hx] at htw
    have hw : ∀ b ∈ t.takeWhile isWs, isSpTab b = true :=
      ws_run_sptab htmem.1 htmem.2.1 htmem.2.2 hchk2t hthead
    have hih : chk5 (sub5 (t.dropWhile isWs)) = true := by
      apply ih
      · exact not_mem_dropWhile _ htmem.1
      · exact not_mem_dropWhile _ htmem.2.1
      · exact not_mem_dropWhile _ htmem.2.2
      · exact chk2_dropWhile _ hchk2t
      · exact chk3_dropWhile _ hchk3t
    have houthead : ∀ b, (sub5 (t.dropWhile isWs)).head? = some b →
        isWs b = false := by
      intro b hb
      rw [head?_sub5] at hb
      exact dropWhile_head_not hb
    have hout125 : (sub5 (t.dropWhile isWs)).head? ≠ some 125 := by
      rw [head?_sub5]
      exact h125
    have hws : wsThenRB (t.takeWhile isWs ++ sub5 (t.dropWhile isWs)) = false := by
      rw [wsThenRB_append_ws (fun b hb => List.mem_takeWhile_imp hb)]
      exact wsThenRB_false_of houthead hout125
    have hX : chk5 (t.takeWhile isWs ++ sub5 (t.dropWhile isWs)) = true :=
      chk5_append_ne10 (fun b hb => isSpTab_ne_nl (hw b hb)) hih
    simp only [List.append_assoc, List.cons_append, List.nil_append]
    rw [chk5_cons, chk5_cons]
    simp [hws, hX]
    left
    rcases hwlist : t.takeWhile isWs with _ | ⟨b, w'⟩
    · rcases hy : (sub5 (t.dropWhile isWs)).head? with _ | y
      · simp [hy]
      · have := houthead y hy
        simp [hy]
        intro hx
        rw [hx] at this
        simp [isWs] at this
    · have hb := hw b (by rw [hwlist]; simp)
      simpa using isSpTab_ne_nl hb
  | case4 rest h1 ih =>
    rw [sub5_single rest h1]
    have hresthead : (sub5 rest).head?.getD 0 ≠ 10 := by
      rw [head?_sub5]
      have := takeWhile_nil_head_getD (p := fun d => d == 10)
        (l := rest) ?_ (by simp)
      · simpa using this
      · rcases htw : rest.takeWhile (fun d => d == 10) with _ | ⟨x, xs⟩
        · rfl
        · exfalso
          apply h1
          rw [htw]
          simp
    have hih : chk5 (sub5 rest) = true := by
      apply ih
      · exact fun hb => h11 (by simp [hb])
      · exact fun hb => h12 (by simp [hb])
      · exact fun hb => h13 (by simp [hb])
      · exact chk2_tail hchk2
      · exact chk3_tail hchk3
    rw [chk5_cons]
    simp [hresthead, hih]
  | case5 c rest hc ih =>
    rw [sub5_cons_ne10 rest hc]
    have hih : chk5 (sub5 rest) = true := by
      apply ih
      · exact fun hb => h11 (by simp [hb])
      · exact fun hb => h12 (by simp [hb])
      · exact fun hb => h13 (by simp [hb])
      · exact chk2_tail hchk2
      · exact chk3_tail hchk3
    rw [chk5_cons]
    simp [hc, hih]

theorem dropWhile_ws_head_ne10 (l : List Nat) :
    (l.dropWhile isWs).head? ≠ some 10 := by
  rcases h : (l.dropWhile isWs).head? with _ | b
  · simp
  · have := dropWhile_head_not h
    intro hx
    simp at hx
    rw [hx] at this
    simp [isWs] at this

theorem chk2_sub5 {l : List Nat} (h11 : 11 ∉ l) (h12 : 12 ∉ l) (h13 : 13 ∉ l)
    (hchk2 : chk2 l = true) : chk2 (sub5 l) = true := by
  induction l using sub5.induct with
  | case1 =>
    rw [sub5_nil]
    rfl
  | case2 rest h1 h125 ih =>
    rw [sub5_match rest h1 h125]
    have hreststack : 11 ∉ rest ∧ 12 ∉ rest ∧ 13 ∉ rest :=
      ⟨fun hb => h11 (by simp [hb]), fun hb => h12 (by simp [hb]),
        fun hb => h13 (by simp [hb])⟩
    have hw : ∀ b ∈ (rest.dropWhile (fun d => d == 10)).takeWhile isWs,
        isSpTab b = true :=
      ws_run_sptab (not_mem_dropWhile _ hreststack.1)
        (not_mem_dropWhile _ hreststack.2.1)
        (not_mem_dropWhile _ hreststack.2.2)
        (chk2_dropWhile _ (chk2_tail hchk2)) (dropWhile_nl_head_ne rest)
    have hih : chk2 (sub5 ((rest.dropWhile (fun d => d == 10)).dropWhile
        isWs).tail) = true := by
      apply ih
      · exact not_mem_tail (not_mem_dropWhile _ (not_mem_dropWhile _
          hreststack.1))
      · exact not_mem_tail (not_mem_dropWhile _ (not_mem_dropWhile _
          hreststack.2.1))
      · exact not_mem_tail (not_mem_dropWhile _ (not_mem_dropWhile _
          hreststack.2.2))
      · exact chk2_tail' (chk2_dropWhile _ (chk2_dropWhile _ (chk2_tail hchk2)))
    rw [List.cons_append, chk2_cons]
    have hX : chk2 ((rest.dropWhile (fun d => d == 10)).takeWhile isWs ++
        125 :: sub5 ((rest.dropWhile (fun d => d == 10)).dropWhile isWs).tail) =
        true := by
      refine chk2_append_sptab hw (by simp) ?_
      rw [chk2_cons]
      simp [isSpTab, hih]
    simp [isSpTab, hX]
  | case3 rest h1 h125 ih =>
    rw [sub5_nomatch rest h1 h125]
    have hreststack : 11 ∉ rest ∧ 12 ∉ rest ∧ 13 ∉ rest :=
      ⟨fun hb => h11 (by simp [hb]), fun hb => h12 (by simp [hb]),
        fun hb => h13 (by simp [hb])⟩
    have hw : ∀ b ∈ (rest.dropWhile (fun d => d == 10)).takeWhile isWs,
        isSpTab b = true :=
      ws_run_sptab (not_mem_dropWhile _ hreststack.1)
        (not_mem_dropWhile _ hreststack.2.1)
        (not_mem_dropWhile _ hreststack.2.2)
        (chk2_dropWhile _ (chk2_tail hchk2)) (dropWhile_nl_head_ne rest)
    have hih : chk2 (sub5 ((rest.dropWhile (fun d => d == 10)).dropWhile
        isWs)) = true := by
      apply ih
      · exact not_mem_dropWhile _ (not_mem_dropWhile _ hreststack.1)
      · exact not_mem_dropWhile _ (not_mem_dropWhile _ hreststack.2.1)
      · exact not_mem_dropWhile _ (not_mem_dropWhile _ hreststack.2.2)
      · exact chk2_dropWhile _ (chk2_dropWhile _ (chk2_tail hchk2))
    have houthead : (sub5 ((rest.dropWhile (fun d => d == 10)).dropWhile
        isWs)).head? ≠ some 10 := by
      rw [head?_sub5]
      exact dropWhile_ws_head_ne10 _
    have hX : chk2 ((rest.dropWhile (fun d => d == 10)).takeWhile isWs ++
        sub5 ((rest.dropWhile (fun d => d == 10)).dropWhile isWs)) = true :=
      chk2_append_sptab hw houthead hih
    simp only [List.append_assoc, List.cons_append]
    rw [chk2_cons]
    have hrun : chk2 (rest.takeWhile (fun d => d == 10) ++
        ((rest.dropWhile (fun d => d == 10)).takeWhile isWs ++
          sub5 ((rest.dropWhile (fun d => d == 10)).dropWhile isWs))) = true := by
      refine chk2_append_nl ?_ hX
      intro b hb
      simpa using List.mem_takeWhile_imp hb
    simp [isSpTab, hrun]
  | case4 rest h1 ih =>
    rw [sub5_single rest h1, chk2_cons]
    have hih : chk2 (sub5 rest) = true := by
      apply ih
      · exact fun hb => h11 (by simp [hb])
      · exact fun hb => h12 (by simp [hb])
      · exact fun hb => h13 (by simp [hb])
      · exact chk2_tail hchk2
    simp [isSpTab, hih]
  | case5 c rest hc ih =>
    rw [sub5_cons_ne10 rest hc, chk2_cons, head?_sub5]
    have hih : chk2 (sub5 rest) = true := by
      apply ih
      · exact fun hb => h11 (by simp [hb])
      · exact fun hb => h12 (by simp [hb])
      · exact fun hb => h13 (by simp [hb])
      · exact chk2_tail hchk2
    rw [chk2_cons] at hchk2
    simp only [Bool.and_eq_true] at hchk2 ⊢
    exact ⟨hchk2.1, hih⟩

theorem chk3_sub5 {l : List Nat} (h11 : 11 ∉ l) (h12 : 12 ∉ l) (h13 : 13 ∉ l)
    (hchk2 : chk2 l = true) (hchk3 : chk3 l = true) :
    chk3 (sub5 l) = true := by
  induction l using sub5.induct with
  | case1 =>
    rw [sub5_nil]
    rfl
  | case2 rest h1 h125 ih =>
    rw [sub5_match rest h1 h125]
    have hreststack : 11 ∉ rest ∧ 12 ∉ rest ∧ 13 ∉ rest :=
      ⟨fun hb => h11 (by simp [hb]), fun hb => h12 (by simp [hb]),
        fun hb => h13 (by simp [hb])⟩
    have hw : ∀ b ∈ (rest.dropWhile (fun d => d == 10)).takeWhile isWs,
        isSpTab b = true :=
      ws_run_sptab (not_mem_dropWhile _ hreststack.1)
        (not_mem_dropWhile _ hreststack.2.1)
        (not_mem_dropWhile _ hreststack.2.2)
        (chk2_dropWhile _ (chk2_tail hchk2)) (dropWhile_nl_head_ne rest)
    have hih : chk3 (sub5 ((rest.dropWhile (fun d => d == 10)).dropWhile
        isWs).tail) = true := by
      apply ih
      · exact not_mem_tail (not_mem_dropWhile _ (not_mem_dropWhile _
          hreststack.1))
      · exact not_mem_tail (not_mem_dropWhile _ (not_mem_dropWhile _
          hreststack.2.1))
      · exact not_mem_tail (not_mem_dropWhile _ (not_mem_dropWhile _
          hreststack.2.2))
      · exact chk2_tail' (chk2_dropWhile _ (chk2_dropWhile _ (chk2_tail hchk2)))
      · exact chk3_tail' (chk3_dropWhile _ (chk3_dropWhile _ (chk3_tail hchk3)))
    have hX : chk3 ((rest.dropWhile (fun d => d == 10)).takeWhile isWs ++
        125 :: sub5 ((rest.dropWhile (fun d => d == 10)).dropWhile isWs).tail) =
        true := by
      refine chk3_append_ne10 (fun b hb => isSpTab_ne_nl (hw b hb)) ?_
      rw [chk3_cons]
      simp [hih]
    rw [List.cons_append, chk3_cons]
    simp [hX]
    left
    rcases hwlist : (rest.dropWhile (fun d => d == 10)).takeWhile isWs with
      _ | ⟨b, w'⟩
    · simp
    · have hb := hw b (by rw [hwlist]; simp)
      simpa using isSpTab_ne_nl hb
  | case3 rest h1 h125 ih =>
    rcases run_single_of_chk3 hchk3 h1 with ⟨t, hrest, htw⟩
    subst hrest
    have htdrop : t.dropWhile (fun d => d == 10) = t := takeWhile_nil_dropWhile htw
    have hrewrite : (10 :: t).dropWhile (fun d => d == 10) = t := by
      rw [List.dropWhile_cons]
      simp [htdrop]
    have hruntw : (10 :: t).takeWhile (fun d => d == 10) = [10] := by
      rw [List.takeWhile_cons]
      simp [htw]
    rw [sub5_nomatch (10 :: t) h1 h125, hrewrite, hruntw]
    rw [hrewrite] at h125 ih
    have htmem : 11 ∉ t ∧ 12 ∉ t ∧ 13 ∉ t :=
      ⟨fun hb => h11 (by simp [hb]), fun hb => h12 (by simp [hb]),
        fun hb => h13 (by simp [hb])⟩
    have hchk2t : chk2 t = true := chk2_tail (chk2_tail hchk2)
    have hchk3t : chk3 t = true := chk3_tail (chk3_tail hchk3)
    have hthead : t.head? ≠ some 10 := by
      intro hx
      rcases t with _ | ⟨x, t'⟩
      · simp at hx
      · simp at hx
        rw [List.takeWhile_cons] at htw
        simp [hx] at htw
    have hw : ∀ b ∈ t.takeWhile isWs, isSpTab b = true :=
      ws_run_sptab htmem.1 htmem.2.1 htmem.2.2 hchk2t hthead
    have hih : chk3 (sub5 (t.dropWhile isWs)) = true := by
      apply ih
      · exact not_mem_dropWhile _ htmem.1
      · exact not_mem_dropWhile _ htmem.2.1
      · exact not_mem_dropWhile _ htmem.2.2
      · exact chk2_dropWhile _ hchk2t
      · exact chk3_dropWhile _ hchk3t
    have hX : chk3 (t.takeWhile isWs ++ sub5 (t.dropWhile isWs)) = true :=
      chk3_append_ne10 (fun b hb => isSpTab_ne_nl (hw b hb)) hih
    have hXh : ((t.takeWhile isWs).head?.or
        (sub5 (t.dropWhile isWs)).head?).getD 0 ≠ 10 := by
      rcases hwlist : t.takeWhile isWs with _ | ⟨b, w'⟩
      · rcases hy : (sub5 (t.dropWhile isWs)).head? with _ | y
        · simp
        · rw [head?_sub5] at hy
          have := dropWhile_head_not hy
          simp
          intro hx
          rw [hx] at this
          simp [isWs] at this
      · have hb := hw b (by rw [hwlist]; simp)
        simpa using isSpTab_ne_nl hb
    simp only [List.append_assoc, List.cons_append, List.nil_append]
    rw [chk3_cons, chk3_cons]
    simp [hX]
    refine ⟨by simpa using hXh, Or.inl (by simpa using hXh)⟩
  | case4 rest h1 ih =>
    rw [sub5_single rest h1]
    have hresthead : (sub5 rest).head?.getD 0 ≠ 10 := by
      rw [head?_sub5]
      have := takeWhile_nil_head_getD (p := fun d => d == 10)
        (l := rest) ?_ (by simp)
      · simpa using this
      · rcases htw : rest.takeWhile (fun d => d == 10) with _ | ⟨x, xs⟩
        · rfl
        · exfalso
          apply h1
          rw [htw]
          simp
    have hih : chk3 (sub5 rest) = true := by
      apply ih
      · exact fun hb => h11 (by simp [hb])
      · exact fun hb => h12 (by simp [hb])
      · exact fun hb => h13 (by simp [hb])
      · exact chk2_tail hchk2
      · exact chk3_tail hchk3
    rw [chk3_cons]
    simp [hresthead, hih]
  | case5 c rest hc ih =>
    rw [sub5_cons_ne10 rest hc]
    have hih : chk3 (sub5 rest) = true := by
      apply ih
      · exact fun hb => h11 (by simp [hb])
      · exact fun hb => h12 (by simp [hb])
      · exact fun hb => h13 (by simp [hb])
      · exact chk2_tail hchk2
      · exact chk3_tail hchk3
    rw [chk3_cons]
    simp [hc, hih]

theorem chk4_sub5 {l : List Nat} (h11 : 11 ∉ l) (h12 : 12 ∉ l) (h13 : 13 ∉ l)
    (hchk2 : chk2 l = true) (hchk4 : chk4 l = true) :
    chk4 (sub5 l) = true := by
  induction l using sub5.induct with
  | case1 =>
    rw [sub5_nil]
    rfl
  | case2 rest h1 h125 ih =>
    rw [sub5_match rest h1 h125]
    have hreststack : 11 ∉ rest ∧ 12 ∉ rest ∧ 13 ∉ rest :=
      ⟨fun hb => h11 (by simp [hb]), fun hb => h12 (by simp [hb]),
        fun hb => h13 (by simp [hb])⟩
    have hw : ∀ b ∈ (rest.dropWhile (fun d => d == 10)).takeWhile isWs,
        isSpTab b = true :=
      ws_run_sptab (not_mem_dropWhile _ hreststack.1)
        (not_mem_dropWhile _ hreststack.2.1)
        (not_mem_dropWhile _ hreststack.2.2)
        (chk2_dropWhile _ (chk2_tail hchk2)) (dropWhile_nl_head_ne rest)
    have hih : chk4 (sub5 ((rest.dropWhile (fun d => d == 10)).dropWhile
        isWs).tail) = true := by
      apply ih
      · exact not_mem_tail (not_mem_dropWhile _ (not_mem_dropWhile _
          hreststack.1))
      · exact not_mem_tail (not_mem_dropWhile _ (not_mem_dropWhile _
          hreststack.2.1))
      · exact not_mem_tail (not_mem_dropWhile _ (not_mem_dropWhile _
          hreststack.2.2))
      · exact chk2_tail' (chk2_dropWhile _ (chk2_dropWhile _ (chk2_tail hchk2)))
      · exact chk4_tail' (chk4_dropWhile _ (chk4_dropWhile _ (chk4_tail hchk4)))
    have hX : chk4 ((rest.dropWhile (fun d => d == 10)).takeWhile isWs ++
        125 :: sub5 ((rest.dropWhile (fun d => d == 10)).dropWhile isWs).tail) =
        true := by
      refine chk4_append_ne123 (fun b hb => isSpTab_ne_rb (hw b hb)) ?_
      rw [chk4_cons]
      simp [hih]
    rw [List.cons_append, chk4_cons]
    simp [hX]
  | case3 rest h1 h125 ih =>
    rw [sub5_nomatch rest h1 h125]
    have hreststack : 11 ∉ rest ∧ 12 ∉ rest ∧ 13 ∉ rest :=
      ⟨fun hb => h11 (by simp [hb]), fun hb => h12 (by simp [hb]),
        fun hb => h13 (by simp [hb])⟩
    have hw : ∀ b ∈ (rest.dropWhile (fun d => d == 10)).takeWhile isWs,
        isSpTab b = true :=
      ws_run_sptab (not_mem_dropWhile _ hreststack.1)
        (not_mem_dropWhile _ hreststack.2.1)
        (not_mem_dropWhile _ hreststack.2.2)
        (chk2_dropWhile _ (chk2_tail hchk2)) (dropWhile_nl_head_ne rest)
    have hih : chk4 (sub5 ((rest.dropWhile (fun d => d == 10)).dropWhile
        isWs)) = true := by
      apply ih
      · exact not_mem_dropWhile _ (not_mem_dropWhile _ hreststack.1)
      · exact not_mem_dropWhile _ (not_mem_dropWhile _ hreststack.2.1)
      · exact not_mem_dropWhile _ (not_mem_dropWhile _ hreststack.2.2)
      · exact chk2_dropWhile _ (chk2_dropWhile _ (chk2_tail hchk2))
      · exact chk4_dropWhile _ (chk4_dropWhile _ (chk4_tail hchk4))
    have hX : chk4 ((rest.dropWhile (fun d => d == 10)).takeWhile isWs ++
        sub5 ((rest.dropWhile (fun d => d == 10)).dropWhile isWs)) = true :=
      chk4_append_ne123 (fun b hb => isSpTab_ne_rb (hw b hb)) hih
    have hrun : chk4 (rest.takeWhile (fun d => d == 10) ++
        ((rest.dropWhile (fun d => d == 10)).takeWhile isWs ++
          sub5 ((rest.dropWhile (fun d => d == 10)).dropWhile isWs))) = true := by
      refine chk4_append_ne123 ?_ hX
      intro b hb
      have := List.mem_takeWhile_imp hb
      simp at this
      omega
    simp only [List.append_assoc, List.cons_append]
    rw [chk4_cons]
    simp [hrun]
  | case4 rest h1 ih =>
    rw [sub5_single rest h1, chk4_cons]
    have hih : chk4 (sub5 rest) = true := by
      apply ih
      · exact fun hb => h11 (by simp [hb])
      · exact fun hb => h12 (by simp [hb])
      · exact fun hb => h13 (by simp [hb])
      · exact chk2_tail hchk2
      · exact chk4_tail hchk4
    simp [hih]
  | case5 c rest hc ih =>
    rw [sub5_cons_ne10 rest hc, chk4_cons]
    have hih : chk4 (sub5 rest) = true := by
      apply ih
      · exact fun hb => h11 (by simp [hb])
      · exact fun hb => h12 (by simp [hb])
      · exact fun hb => h13 (by simp [hb])
      · exact chk2_tail hchk2
      · exact chk4_tail hchk4
    simp only [Bool.and_eq_true, hih, and_true]
    by_cases hc123 : c = 123
    · subst hc123
      rw [head?_sub5]
      by_cases hh : rest.head?.getD 0 = 10
      · have hne : (sub5 rest).tail.head?.getD 0 ≠ 10 := by
          intro hx
          have hsome : (sub5 rest).tail.head? = some 10 := by
            rcases hy : (sub5 rest).tail.head? with _ | y
            · rw [hy] at hx
              simp at hx
            · rw [hy] at hx
              simp at hx
              rw [hx]
          have h2nd := second_nl_sub5 hsome
          rw [chk4_cons] at hchk4
          simp only [Bool.and_eq_true] at hchk4
          rcases hchk4 with ⟨hbad, _⟩
          rcases rest with _ | ⟨r1, rest'⟩
          · simp at hh
          · simp at hh
            subst hh
            simp only [List.tail_cons] at h2nd
            rcases rest' with _ | ⟨r2, rest''⟩
            · simp at h2nd
            · simp at h2nd
              subst h2nd
              simp at hbad
        simp only [List.head?_tail] at hne
        simp [hne]
      · simp [hh]
    · simp [hc123]

theorem sub5_fix {l : List Nat} (h : chk5 l = true) : sub5 l = l := by
  induction l using sub5.induct with
  | case1 => exact sub5_nil
  | case2 rest h1 h125 ih =>
    exfalso
    rcases takeWhile_one_exists h1 with ⟨a, t, hrest, ha⟩
    have ha' : a = 10 := by simpa using ha
    subst ha'
    subst hrest
    have hdd : ((10 :: t).dropWhile (fun d => d == 10)).dropWhile isWs =
        t.dropWhile isWs := by
      rw [List.dropWhile_cons]
      simp only [show ((10 : Nat) == 10) = true from by simp, if_true]
      exact dropWhile_dropWhile_imp _ _ (fun b hb => by
        simp at hb
        simp [hb, isWs])
    rw [hdd] at h125
    have hws : wsThenRB t = true := by
      unfold wsThenRB
      simp [h125]
    rw [chk5_cons] at h
    simp [hws] at h
  | case3 rest h1 h125 ih =>
    rw [sub5_nomatch rest h1 h125,
      ih (chk5_dropWhile isWs (chk5_dropWhile _ (chk5_tail h))),
      List.append_assoc, List.takeWhile_append_dropWhile, List.cons_append,
      List.takeWhile_append_dropWhile]
  | case4 rest h1 ih =>
    rw [sub5_single rest h1, ih (chk5_tail h)]
  | case5 c rest hc ih =>
    rw [sub5_cons_ne10 rest hc, ih (chk5_tail h)]

/-! ### run_one: assembly -/

theorem whitespaceRunOne_fst (c : List Nat) :
    (whitespaceRunOne c).1 = sub5 (sub4 (sub3 (sub2 (sub1 c)))) := by
  unfold whitespaceRunOne VALIDATIONS
  simp only [List.foldl]
  split_ifs <;> simp_all

theorem whitespaceRunOne_of_fixes {x : List Nat} (f1 : sub1 x = x)
    (f2 : sub2 x = x) (f3 : sub3 x = x) (f4 : sub4 x = x) (f5 : sub5 x = x) :
    whitespaceRunOne x = (x, []) := by
  unfold whitespaceRunOne VALIDATIONS
  simp [f1, f2, f3, f4, f5]

set_option maxHeartbeats 2000000 in
/-- C3: `WhitespaceLinter.run_one` equals the explicit sequential fold of
the five substitutions in their fixed order, and the violations list holds
exactly the names, in order, of the substitutions that changed the
contents at their point in the sequence. -/
theorem whitespace_run_one_matches_spec (c : List Nat) :
    whitespaceRunOne c = whitespaceRunOneSpec c := by
  unfold whitespaceRunOne whitespaceRunOneSpec VALIDATIONS
  simp only [List.foldl]
  split_ifs <;> simp_all

/-- C1 counterexample: on the byte string `\n\n\v\n\n}` the fifth
substitution's group `\s*` captures the vertical tab and the LFs after it,
so one application leaves `\n\v\n\n}`, which still matches
`\n+\n(\s*})` — the second run changes the contents again and reports a
violation. -/
theorem whitespace_run_one_idempotent_cex :
    ¬(whitespaceRunOne (whitespaceRunOne [10, 10, 11, 10, 10, 125]).1 =
      ((whitespaceRunOne [10, 10, 11, 10, 10, 125]).1, [])) := by
  have h1 : whitespaceRunOne [10, 10, 11, 10, 10, 125] =
      ([10, 11, 10, 10, 125], ["empty lines before a closing brace"]) := by
    simp [whitespaceRunOne, VALIDATIONS, sub1, sub2, sub3, sub4, sub5, isWs,
      isSpTab, List.dropWhile, List.takeWhile]
  have h2 : whitespaceRunOne [10, 11, 10, 10, 125] =
      ([10, 11, 10, 125], ["empty lines before a closing brace"]) := by
    simp [whitespaceRunOne, VALIDATIONS, sub1, sub2, sub3, sub4, sub5, isWs,
      isSpTab, List.dropWhile, List.takeWhile]
  rw [h1]
  simp [h2]

/-- C1 (amended): `WhitespaceLinter.run_one` is idempotent once fully
applied for every byte string containing no vertical-tab (0x0B) and no
form-feed (0x0C) byte: if `run_one` maps `c` to `(c', v)` then it maps
`c'` to `(c', [])`.  (Those two bytes are matched by the `\s*` group of
the fifth pattern but normalized by none of the substitutions, and make
`run_one` non-idempotent.) -/
theorem whitespace_run_one_idempotent_no_vtff (c : List Nat)
    (h11 : 11 ∉ c) (h12 : 12 ∉ c) :
    whitespaceRunOne (whitespaceRunOne c).1 = ((whitespaceRunOne c).1, []) := by
  have h13_1 : 13 ∉ sub1 c := sub1_no13 c
  have h11_1 : 11 ∉ sub1 c := fun hb => by
    rcases mem_sub1 hb with h | h
    · simp at h
    · exact h11 h
  have h12_1 : 12 ∉ sub1 c := fun hb => by
    rcases mem_sub1 hb with h | h
    · simp at h
    · exact h12 h
  have hchk2_2 : chk2 (sub2 (sub1 c)) = true := sub2_chk2 (sub1 c)
  have h13_2 : 13 ∉ sub2 (sub1 c) := fun hb => by
    rcases mem_sub2 hb with h | h
    · simp at h
    · exact h13_1 h
  have h11_2 : 11 ∉ sub2 (sub1 c) := fun hb => by
    rcases mem_sub2 hb with h | h
    · simp at h
    · exact h11_1 h
  have h12_2 : 12 ∉ sub2 (sub1 c) := fun hb => by
    rcases mem_sub2 hb with h | h
    · simp at h
    · exact h12_1 h
  have hchk3_3 : chk3 (sub3 (sub2 (sub1 c))) = true := sub3_chk3 _
  have hchk2_3 : chk2 (sub3 (sub2 (sub1 c))) = true := chk2_sub3 hchk2_2
  have h13_3 : 13 ∉ sub3 (sub2 (sub1 c)) := fun hb => by
    rcases mem_sub3 hb with h | h
    · simp at h
    · exact h13_2 h
  have h11_3 : 11 ∉ sub3 (sub2 (sub1 c)) := fun hb => by
    rcases mem_sub3 hb with h | h
    · simp at h
    · exact h11_2 h
  have h12_3 : 12 ∉ sub3 (sub2 (sub1 c)) := fun hb => by
    rcases mem_sub3 hb with h | h
    · simp at h
    · exact h12_2 h
  have hchk4_4 : chk4 (sub4 (sub3 (sub2 (sub1 c)))) = true := sub4_chk4 _
  have hchk3_4 : chk3 (sub4 (sub3 (sub2 (sub1 c)))) = true := chk3_sub4 hchk3_3
  have hchk2_4 : chk2 (sub4 (sub3 (sub2 (sub1 c)))) = true := chk2_sub4 hchk2_3
  have h13_4 : 13 ∉ sub4 (sub3 (sub2 (sub1 c))) := fun hb => by
    rcases mem_sub4 hb with h | h
    · simp at h
    · exact h13_3 h
  have h11_4 : 11 ∉ sub4 (sub3 (sub2 (sub1 c))) := fun hb => by
    rcases mem_sub4 hb with h | h
    · simp at h
    · exact h11_3 h
  have h12_4 : 12 ∉ sub4 (sub3 (sub2 (sub1 c))) := fun hb => by
    rcases mem_sub4 hb with h | h
    · simp at h
    · exact h12_3 h
  have hchk5_5 : chk5 (sub5 (sub4 (sub3 (sub2 (sub1 c))))) = true :=
    sub5_chk5 h11_4 h12_4 h13_4 hchk2_4 hchk3_4
  have hchk4_5 : chk4 (sub5 (sub4 (sub3 (sub2 (sub1 c))))) = true :=
    chk4_sub5 h11_4 h12_4 h13_4 hchk2_4 hchk4_4
  have hchk3_5 : chk3 (sub5 (sub4 (sub3 (sub2 (sub1 c))))) = true :=
    chk3_sub5 h11_4 h12_4 h13_4 hchk2_4 hchk3_4
  have hchk2_5 : chk2 (sub5 (sub4 (sub3 (sub2 (sub1 c))))) = true :=
    chk2_sub5 h11_4 h12_4 h13_4 hchk2_4
  have h13_5 : 13 ∉ sub5 (sub4 (sub3 (sub2 (sub1 c)))) := fun hb => by
    rcases mem_sub5 hb with h | h
    · simp at h
    · exact h13_4 h
  rw [whitespaceRunOne_fst c]
  exact whitespaceRunOne_of_fixes (sub1_fix h13_5) (sub2_fix hchk2_5)
    (sub3_fix hchk3_5) (sub4_fix hchk4_5) (sub5_fix hchk5_5)

/-- Witness for C1 at the whitespace test vector
`b'function() {\r\n\n\n// \n\n}\n'`. -/
theorem whitespace_run_one_idempotent_no_vtff_witness :
    ((11 ∉ [102, 117, 110, 99, 116, 105, 111, 110, 40, 41, 32, 123, 13, 10,
        10, 10, 47, 47, 32, 10, 10, 125, 10]) ∧
      (12 ∉ [102, 117, 110, 99, 116, 105, 111, 110, 40, 41, 32, 123, 13, 10,
        10, 10, 47, 47, 32, 10, 10, 125, 10])) ∧
    whitespaceRunOne (whitespaceRunOne [102, 117, 110, 99, 116, 105, 111,
        110, 40, 41, 32, 123, 13, 10, 10, 10, 47, 47, 32, 10, 10, 125, 10]).1 =
      ((whitespaceRunOne [102, 117, 110, 99, 116, 105, 111, 110, 40, 41, 32,
        123, 13, 10, 10, 10, 47, 47, 32, 10, 10, 125, 10]).1, []) :=
  ⟨⟨by decide, by decide⟩,
    whitespace_run_one_idempotent_no_vtff _ (by decide) (by decide)⟩

/-- C4: for every linter configuration and candidate list, a file is
dispatched to the linter iff it matches at least one allowlist regex and
no denylist regex. -/
theorem linter_file_dispatch_iff (allowlist denylist : List FileRegex)
    (files : List String) (filename : String) :
    filename ∈ filterLinterFiles allowlist denylist files ↔
      filename ∈ files ∧ (∃ r ∈ allowlist, r filename = true) ∧
        ∀ r ∈ denylist, r filename = false := by
  simp [filterLinterFiles, List.mem_filter, List.any_eq_true, List.all_eq_true,
    and_assoc]
  exact fun _ => and_comm

/-- C9: a linter whose options have no allowlist key, or an empty
allowlist, is dispatched zero files. -/
theorem empty_allowlist_dispatches_nothing (o : LinterOptions)
    (files : List String)
    (h : o.allowlist = none ∨ o.allowlist = some []) :
    filterLinterFiles (optAllowlist o) (optDenylist o) files = [] := by
  have hempty : optAllowlist o = [] := by
    rcases h with h | h <;> simp [optAllowlist, h]
  simp [filterLinterFiles, hempty]

/-- Witness for C9 at a concrete option set and file list. -/
theorem empty_allowlist_dispatches_nothing_witness :
    filterLinterFiles (optAllowlist ⟨none, none⟩) (optDenylist ⟨none, none⟩)
      ["frontend/a.py", "b.js"] = [] :=
  empty_allowlist_dispatches_nothing ⟨none, none⟩ ["frontend/a.py", "b.js"]
    (Or.inl rfl)

/-- C10: when exactly two commits are given and the second is the all-zeros
null hash (a branch deletion), `_get_changed_files` yields no files. -/
theorem null_hash_push_no_files (diffIndexTokens diffTreeTokens : List (List Nat))
    (commit : String) :
    getChangedFiles diffIndexTokens diffTreeTokens [commit, GIT_NULL_HASH] =
      some [] := by
  simp [getChangedFiles]

/-- C6: the candidate file list equals its specification — the explicit
post-`--` file list when one is supplied, otherwise the sorted decoded
version-control listing (all files at HEAD under `--all-files`, else the
files changed in the commit range); and the explicit files are removed
from the commit arguments. -/
theorem candidate_file_list_correct (dec : List Nat → String)
    (lsTreeTokens diffIndexTokens diffTreeTokens : List (List Nat))
    (argv : List String) (allFiles : Bool) (commits : List String) :
    argsFiles dec lsTreeTokens diffIndexTokens diffTreeTokens argv allFiles
        commits =
      candidateFilesSpec dec lsTreeTokens diffIndexTokens diffTreeTokens argv
        allFiles commits ∧
    (getExplicitFileList argv).1 =
      (if "--" ∈ argv then argv.take (argv.indexOf "--") else argv) := by
  constructor
  · unfold argsFiles candidateFilesSpec filesToConsider getExplicitFileList
    by_cases hmem : "--" ∈ argv <;> by_cases hall : allFiles <;> simp [hmem, hall]
  · unfold getExplicitFileList
    by_cases hmem : "--" ∈ argv <;> simp [hmem]

/-- How `feed` behaves on safe events: it raises `Unclosed tag` at the
position computed by `unmatchedEndPos` on the stack's tag names, and
succeeds when there is none. -/
theorem vueFeed_unclosed (events : List VEvent) (st : VueParserState)
    (hsafe : events.all eventSafe = true) :
    (∀ p, unmatchedEndPos (st.stack.map (fun e => e.1)) events = some p →
      vueFeed st events = .error (.lexc ⟨unclosedMsg p, true⟩)) ∧
    (unmatchedEndPos (st.stack.map (fun e => e.1)) events = none →
      ∃ st', vueFeed st events = .ok st') := by
  induction events generalizing st with
  | nil =>
    constructor
    · intro p hp
      simp [unmatchedEndPos] at hp
    · intro _
      exact ⟨st, rfl⟩
  | cons e rest ih =>
    simp only [List.all_cons, Bool.and_eq_true] at hsafe
    rcases hsafe with ⟨hs, hrest⟩
    cases e with
    | startTag tag text pos attrs =>
      simp only [eventSafe] at hs
      have hok : handleEvent st (.startTag tag text pos attrs) =
          .ok { st with stack := (tag, text, (pos.1 - 1, pos.2)) :: st.stack } := by
        have hany : attrs.any (fun a => a.1 = "id") = false := by
          rw [Bool.eq_false_iff]
          intro hc
          rcases List.any_eq_true.mp hc with ⟨a, ha, haeq⟩
          have := List.all_eq_true.mp hs a ha
          simp at this haeq
          exact this haeq
        unfold handleEvent handleStartTag
        by_cases hid : st.idLinterEnabled = false <;> simp [hid, hany]
      have hfeed : vueFeed st (.startTag tag text pos attrs :: rest) =
          vueFeed { st with stack := (tag, text, (pos.1 - 1, pos.2)) :: st.stack }
            rest := by
        unfold vueFeed
        rw [List.foldlM_cons]
        rw [show (handleEvent st (VEvent.startTag tag text pos attrs)) =
          .ok { st with stack := (tag, text, (pos.1 - 1, pos.2)) :: st.stack }
          from hok]
        rfl
      have := ih { st with stack := (tag, text, (pos.1 - 1, pos.2)) :: st.stack }
        hrest
      constructor
      · intro p hp
        rw [hfeed]
        exact this.1 p hp
      · intro hp
        rw [hfeed]
        exact this.2 hp
    | endTag tag pos =>
      have hmapdrop : (st.stack.map (fun e => e.1)).dropWhile (fun x => x ≠ tag) =
          (st.stack.dropWhile (fun e => e.1 ≠ tag)).map (fun e => e.1) := by
        rw [List.dropWhile_map]
        rfl
      have hev : handleEvent st (.endTag tag pos) = handleEndTag st tag pos := rfl
      rcases hdrop : st.stack.dropWhile (fun e => e.1 ≠ tag) with _ | ⟨top, stack'⟩
      · have herr : handleEvent st (.endTag tag pos) =
            .error (.lexc ⟨unclosedMsg pos, true⟩) := by
          rw [hev]
          unfold handleEndTag
          rw [hdrop]
        have hfeed : vueFeed st (.endTag tag pos :: rest) =
            .error (.lexc ⟨unclosedMsg pos, true⟩) := by
          unfold vueFeed
          rw [List.foldlM_cons, herr]
          rfl
        constructor
        · intro p hp
          rw [hfeed]
          simp only [unmatchedEndPos, hmapdrop, hdrop, List.map_nil] at hp
          rw [Option.some_inj.mp hp]
        · intro hp
          simp only [unmatchedEndPos, hmapdrop, hdrop, List.map_nil] at hp
          exact absurd hp (by simp)
      · have htop : top.1 = tag := by
          have := List.head?_dropWhile_not (fun e => e.1 ≠ tag) st.stack
          rw [hdrop] at this
          simp at this
          exact this
        have hok : ∃ st', handleEvent st (.endTag tag pos) = .ok st' ∧
            st'.stack = stack' := by
          rw [hev]
          unfold handleEndTag
          rw [hdrop]
          simp only [htop, ne_eq, not_true_eq_false, if_false, ite_not]
          by_cases hni : stack'.isEmpty <;> simp [hni]
        rcases hok with ⟨st', hok, hstack⟩
        have hfeed : vueFeed st (.endTag tag pos :: rest) = vueFeed st' rest := by
          unfold vueFeed
          rw [List.foldlM_cons, hok]
          rfl
        have hun : unmatchedEndPos (st.stack.map (fun e => e.1))
            (.endTag tag pos :: rest) =
            unmatchedEndPos (st'.stack.map (fun e => e.1)) rest := by
          simp only [unmatchedEndPos, hmapdrop, hdrop, List.map_cons, hstack]
        have := ih st' hrest
        constructor
        · intro p hp
          rw [hfeed]
          exact this.1 p (by rw [← hun]; exact hp)
        · intro hp
          rw [hfeed]
          exact this.2 (by rw [← hun]; exact hp)
    | comment data =>
      simp only [eventSafe] at hs
      have hok : ∃ st', handleEvent st (.comment data) = .ok st' ∧
          st'.stack = st.stack := by
        have hev : handleEvent st (.comment data) = handleComment st data := rfl
        rw [hev]
        unfold handleComment
        by_cases hfind : containsSub ("id-lint ".toList) data = false
        · rw [if_pos hfind]
          exact ⟨st, rfl, rfl⟩
        · rw [if_neg hfind]
          have hc : containsSub ("id-lint ".toList) data = true := by
            cases hx : containsSub ("id-lint ".toList) data
            · exact absurd hx hfind
            · rfl
          rw [hc] at hs
          simp at hs
          rcases hsplit : pySplit (pyStrip data) with _ | ⟨w1, ws⟩
          · rw [hsplit] at hs
            simp at hs
          · rcases ws with _ | ⟨w2, ws'⟩
            · rw [hsplit] at hs
              simp at hs
            · exact ⟨_, rfl, rfl⟩
      rcases hok with ⟨st', hok, hstack⟩
      have hfeed : vueFeed st (.comment data :: rest) = vueFeed st' rest := by
        unfold vueFeed
        rw [List.foldlM_cons, hok]
        rfl
      have := ih st' hrest
      constructor
      · intro p hp
        rw [hfeed]
        exact this.1 p (by
          rw [hstack] at this ⊢
          simp only [unmatchedEndPos] at hp
          exact hp)
      · intro hp
        rw [hfeed]
        exact this.2 (by
          rw [hstack]
          simp only [unmatchedEndPos] at hp
          exact hp)

/-- C2 counterexample: the events of `<template>\n<b></template>` — whose
start and end tags do not balance — are parsed without any exception, and
a section is returned: `handle_endtag` silently pops the unclosed `<b>`. -/
theorem vue_parse_unbalanced_cex :
    balancedEvents
        [.startTag "template" "<template>" (1, 0) [],
         .startTag "b" "<b>" (2, 0) [],
         .endTag "template" (2, 3)] = false ∧
    vueParse "<template>\n<b></template>".toList
        [.startTag "template" "<template>" (1, 0) [],
         .startTag "b" "<b>" (2, 0) [],
         .endTag "template" (2, 3)] =
      .ok [("template", "<template>", "<b>".toList)] := by
  constructor
  · decide
  · rfl

/-- C2 (amended): if every end tag finds a matching open tag on the stack
(after popping non-matching tags, as `handle_endtag` does) then parsing
succeeds, and otherwise — at the first end tag that does not —
`VueHTMLParser.parse` raises `LinterException` reporting `Unclosed tag`
with that tag's line and column, returning no sections.  (Here the events
carry no `id` attributes and no malformed `id-lint` comments, which raise
other exceptions first.) -/
theorem vue_parse_unclosed_tag (contents : List Char) (events : List VEvent)
    (hsafe : events.all eventSafe = true) :
    (∀ p, unmatchedEndPos [] events = some p →
      vueParse contents events = .error (.lexc ⟨unclosedMsg p, true⟩)) ∧
    (unmatchedEndPos [] events = none →
      ∃ sections, vueParse contents events = .ok sections) := by
  have h := vueFeed_unclosed events vueInitState hsafe
  simp only [show vueInitState.stack.map (fun e => e.1) = ([] : List String)
    from rfl] at h
  constructor
  · intro p hp
    unfold vueParse
    rw [h.1 p hp]
  · intro hp
    rcases h.2 hp with ⟨st', hst'⟩
    unfold vueParse
    rw [hst']
    exact ⟨_, rfl⟩

/-- Witness for C2: a lone end tag with no open tag raises `Unclosed tag`
at its position. -/
theorem vue_parse_unclosed_tag_witness :
    vueParse [] [.endTag "b" (3, 1)] =
      .error (.lexc ⟨unclosedMsg (3, 1), true⟩) :=
  (vue_parse_unclosed_tag [] [.endTag "b" (3, 1)] (by decide)).1 (3, 1) (by decide)

/-- Every successful run of the `new_sections` loop produces exactly one
entry per section. -/
theorem buildNewSections_length
    (lintJS : String → List Char → Except PyError (List Char))
    (lintHTML : List Char → Bool → Except PyError (List Char))
    (filename : String) (strict : Bool)
    (sections : List (String × String × List Char)) (newSections : List (List Char))
    (h : buildNewSections lintJS lintHTML filename strict sections =
      .ok newSections) :
    newSections.length = sections.length := by
  induction sections generalizing newSections with
  | nil =>
    simp [buildNewSections] at h
    simp [← h]
  | cons sec rest ih =>
    rw [buildNewSections] at h
    rcases h1 : lintOneSection lintJS lintHTML filename strict sec with e | ns
    · rw [h1] at h
      simp at h
    · rw [h1] at h
      rcases h2 : buildNewSections lintJS lintHTML filename strict rest with e | nr
      · rw [h2] at h
        simp at h
      · rw [h2] at h
        simp at h
        rw [← h]
        simp [ih nr h2]

/-- C8: the `Mismatched sections` branch of `VueLinter.run_one` is
unreachable — the loop appends exactly one new section per parsed section,
so the guarded and unguarded versions of the tail of `run_one` agree on
every input. -/
theorem vue_mismatched_sections_unreachable
    (lintJS : String → List Char → Except PyError (List Char))
    (lintHTML : List Char → Bool → Except PyError (List Char))
    (filename : String) (strict : Bool)
    (sections : List (String × String × List Char)) :
    vueRunOneTail lintJS lintHTML filename strict sections =
      vueRunOneTailNoCheck lintJS lintHTML filename strict sections := by
  unfold vueRunOneTail vueRunOneTailNoCheck
  rcases h : buildNewSections lintJS lintHTML filename strict sections with e | ns
  · rfl
  · simp [buildNewSections_length lintJS lintHTML filename strict sections ns h]

/-- C5: in validate mode `_run_linter_one` writes nothing; in fix mode it
writes exactly the files whose linted contents differ from the originals;
a file left unchanged by the linter is neither rewritten nor reported. -/
theorem report_writes_exactly_changed_files (linter : LinterRunOne)
    (filename : String) (contents : List Nat) :
    (runLinterOne linter filename contents true).2 = [] ∧
    (∀ w newContents,
      (w, newContents) ∈ (runLinterOne linter filename contents false).2 ↔
        w = filename ∧ newContents ≠ contents ∧
          ∃ v, linter filename contents = .ok (newContents, v)) ∧
    (∀ v, linter filename contents = .ok (contents, v) →
      runLinterOne linter filename contents false = ((none, false), [])) := by
  refine ⟨?_, ?_, ?_⟩
  · unfold runLinterOne
    rcases h : linter filename contents with e | p
    · rfl
    · rcases p with ⟨newContents, v⟩
      by_cases hc : contents = newContents <;>
        simp [hc, reportLinterResults]
  · intro w newContents
    constructor
    · intro hmem
      unfold runLinterOne at hmem
      split at hmem
      · rename_i e heq
        simp at hmem
      · rename_i nc v heq
        split at hmem
        · simp at hmem
        · rename_i hc
          simp [reportLinterResults] at hmem
          rcases hmem with ⟨hw, hnc⟩
          refine ⟨hw, ?_, v, ?_⟩
          · rw [hnc]
            exact fun hx => hc hx.symm
          · rw [heq, hnc]
    · rintro ⟨hw, hne, v, hv⟩
      unfold runLinterOne
      rw [hv]
      have hc : ¬(contents = newContents) := fun hx => hne hx.symm
      simp [hc, reportLinterResults, hw]
  · intro v hv
    unfold runLinterOne
    rw [hv]
    simp

/-- Witness for C5: a linter that leaves the contents unchanged is neither
rewritten nor reported in fix mode. -/
theorem report_writes_exactly_changed_files_witness :
    runLinterOne (fun _ c => .ok (c, [])) "a.py" [10] false =
      ((none, false), []) :=
  (report_writes_exactly_changed_files (fun _ c => .ok (c, [])) "a.py"
    [10]).2.2 [] rfl

/-- C7: the aggregated result of `_run_linter` — the violation set and the
fixable flag — does not depend on the completion order of the per-file
worker-pool tasks: any two completion orders (permutations of the task
results, followed by the deterministic `run_all` extension) aggregate to
the same pair. -/
theorem run_linter_schedule_independent (linter : LinterRunOne)
    (validate : Bool) (files : List (String × List Nat))
    (extra order1 order2 : List (Option String × Bool))
    (h1 : order1.Perm (runLinterTasks linter validate files))
    (h2 : order2.Perm (runLinterTasks linter validate files)) :
    runLinterAggregate (order1 ++ extra) = runLinterAggregate (order2 ++ extra) := by
  have hp : (order1 ++ extra).Perm (order2 ++ extra) :=
    (h1.trans h2.symm).append_right extra
  unfold runLinterAggregate
  refine Prod.ext ?_ ?_
  · exact List.toFinset_eq_of_perm _ _ (hp.filterMap Prod.fst)
  · rw [Bool.eq_iff_iff]
    simp only [List.any_eq_true]
    constructor
    · rintro ⟨x, hx, hpx⟩
      exact ⟨x, hp.mem_iff.mp hx, hpx⟩
    · rintro ⟨x, hx, hpx⟩
      exact ⟨x, hp.mem_iff.mpr hx, hpx⟩

/-- Witness for C7 at a concrete linter, file list and two schedules. -/
theorem run_linter_schedule_independent_witness :
    runLinterAggregate (([(some "a", true), (none, false)] :
        List (Option String × Bool)) ++ []) =
      runLinterAggregate (([(none, false), (some "a", true)] :
        List (Option String × Bool)) ++ []) :=
  run_linter_schedule_independent
    (fun f c => if f = "a" then .error ⟨"boom", true⟩ else .ok (c, []))
    true [("a", [1]), ("b", [2])] [] _ _ (by decide) (by decide)

end HookTools
